import Mathlib

/-!
Verification of the evidence-based spec extractor of `scripts/scraper.py`
and the reparse reconciler of `scripts/reparse_raw_scraper_data.py`.

Modelling conventions, used throughout:

* Python `float` values are modelled as exact rationals (`ℚ`).  Every
  constant appearing in the source (`2.54`, `0.453592`, tolerances,
  confidence weights) is exactly representable in decimal, so the only
  divergence from CPython is binary-float rounding noise in the last ulp,
  which none of the verified properties depend on.
* Python `int(x)` truncates toward zero; `x + 0.5` / `x - 0.5` rounding as
  in the source is modelled by `pyRound` below.
* `Decimal.quantize(Decimal('0.01'), ROUND_HALF_UP)` rounds ties away from
  zero; Python's builtin `round(x, 2)` rounds ties to even.  Both are
  modelled exactly on `ℚ` (`round2up`, `roundHE2`).
* Strings are processed as their character lists (`String.data`), with
  hand-rolled total implementations of `strip`, `lower`, substring search
  and the specific regular expressions of the source, so that every
  definition evaluates by kernel reduction.
-/

/-- Python `int()` applied to `x + 0.5` (for `x >= 0`) or `x - 0.5` (for
`x < 0`), i.e. the rounding used by `parse_power_string`:
round to nearest, ties away from zero. -/
def pyRound (q : ℚ) : ℤ :=
  if 0 ≤ q then ⌊q + 1/2⌋ else ⌈q - 1/2⌉

/-- `Decimal.quantize(Decimal('0.01'), rounding=ROUND_HALF_UP)`:
two-decimal fixed point, ties away from zero. -/
def round2up (q : ℚ) : ℚ :=
  (pyRound (q * 100) : ℚ) / 100

/-- Python's builtin `round()` to an integer: round half to even
(banker's rounding) on the exact rational value. -/
def halfEven (q : ℚ) : ℤ :=
  if q - ⌊q⌋ < 1/2 then ⌊q⌋
  else if 1/2 < q - ⌊q⌋ then ⌊q⌋ + 1
  else if Even ⌊q⌋ then ⌊q⌋ else ⌊q⌋ + 1

/-- Python's builtin `round(x, 2)` on the exact rational value. -/
def roundHE2 (q : ℚ) : ℚ :=
  (halfEven (q * 100) : ℚ) / 100

/-- `UnitConverter.inches_to_cm`: `Decimal(str(inches)) * Decimal('2.54')`,
quantized to two decimals with `ROUND_HALF_UP`. -/
def inches_to_cm (inches : ℚ) : ℚ :=
  round2up (inches * (254/100))

/-- `UnitConverter.pounds_to_kg`: `Decimal(str(pounds)) * Decimal('0.453592')`,
quantized to two decimals with `ROUND_HALF_UP`. -/
def pounds_to_kg (pounds : ℚ) : ℚ :=
  round2up (pounds * (453592/1000000))

/-! ### Character-level string helpers (Python `str` methods) -/

/-- Characters matched by the regex class `[\d.]`. -/
def isDigitDot (c : Char) : Bool := c.isDigit || c = '.'

/-- Python `str.strip()` (whitespace at both ends). -/
def pyStrip (l : List Char) : List Char :=
  (l.dropWhile Char.isWhitespace).reverse.dropWhile Char.isWhitespace |>.reverse

/-- Python `str.lower()` (ASCII-relevant part). -/
def pyLower (l : List Char) : List Char := l.map Char.toLower

/-- Does `l` start with `p`? (helper for substring search). -/
def chListLeads : List Char → List Char → Bool
  | [], _ => true
  | _ :: _, [] => false
  | a :: as, b :: bs => a = b && chListLeads as bs

/-- Python `needle in hay` on strings (substring test). -/
def chListInside (n : List Char) : List Char → Bool
  | [] => chListLeads n []
  | c :: rest => chListLeads n (c :: rest) || chListInside n rest

/-- Python `str.replace(pat, rep)` (left-to-right, non-overlapping);
the source only calls it with non-empty patterns. -/
def pyReplaceAux (p : Char) (ps rep : List Char) : List Char → List Char
  | [] => []
  | c :: rest =>
    if chListLeads (p :: ps) (c :: rest) then
      rep ++ pyReplaceAux p ps rep (rest.drop ps.length)
    else
      c :: pyReplaceAux p ps rep rest
termination_by l => l.length
decreasing_by
  · simp only [List.length_drop, List.length_cons]; omega
  · simp only [List.length_cons]; omega

def pyReplace (pat rep l : List Char) : List Char :=
  match pat with
  | [] => l
  | p :: ps => pyReplaceAux p ps rep l

/-! ### Numeric-literal parsing (Python `float(...)` on regex matches) -/

/-- Digit run to a natural number. -/
def digitsToNat (l : List Char) : ℕ :=
  l.foldl (fun n c => 10 * n + (c.toNat - '0'.toNat)) 0

/-- Python `float(s)` where `s` is a run of characters from `[\d.]`:
succeeds iff there is at most one dot and at least one digit
(`float("1.")`, `float(".5")` succeed; `float(".")`, `float("1.2.3")`
raise `ValueError`). -/
def mantissaToRat? (m : List Char) : Option ℚ :=
  match m.splitOn '.' with
  | [ip] => if ip.isEmpty then none else some (digitsToNat ip)
  | [ip, fp] =>
    if ip.isEmpty && fp.isEmpty then none
    else some ((digitsToNat ip : ℚ) + (digitsToNat fp : ℚ) / 10 ^ fp.length)
  | _ => none

/-! ### The regex searches of `parse_power_string`

`re.search` semantics for the two specific patterns of the source:
leftmost match; for these patterns the greedy character-class runs admit
no backtracking (the characters following a maximal `[\d.]+` run are never
in the class), so the match at a position is unique. -/

/-- A match of `-?[\d.]+[Ee][+-]?\d+` anchored at the head of the list
(after the optional sign has been consumed): mantissa run, exponent sign,
exponent digits. -/
def sciAtCore (l : List Char) : Option (List Char × Bool × List Char) :=
  let m := l.takeWhile isDigitDot
  if m.isEmpty then none
  else
    match l.drop m.length with
    | e :: rest =>
      if e = 'E' || e = 'e' then
        match rest with
        | s :: rest' =>
          if s = '+' || s = '-' then
            let ds := rest'.takeWhile Char.isDigit
            if ds.isEmpty then none else some (m, s = '-', ds)
          else
            let ds := (s :: rest').takeWhile Char.isDigit
            if ds.isEmpty then none else some (m, false, ds)
        | [] => none
      else none
    | [] => none

/-- `re.search(r'(-?[\d.]+[Ee][+-]?\d+)', s)`: the matched groups
(overall sign, mantissa, exponent sign, exponent digits). -/
def searchSci : List Char → Option (Bool × List Char × Bool × List Char)
  | [] => none
  | c :: rest =>
    if c = '-' then
      match sciAtCore rest with
      | some (m, es, ds) => some (true, m, es, ds)
      | none => searchSci rest
    else
      match sciAtCore (c :: rest) with
      | some (m, es, ds) => some (false, m, es, ds)
      | none => searchSci rest

/-- `re.search(r'(-?[\d.]+)', s)`: sign and matched `[\d.]+` run. -/
def searchPlainNum : List Char → Option (Bool × List Char)
  | [] => none
  | c :: rest =>
    if c = '-' then
      match rest with
      | d :: _ =>
        if isDigitDot d then some (true, rest.takeWhile isDigitDot)
        else searchPlainNum rest
      | [] => none
    else if isDigitDot c then some (false, (c :: rest).takeWhile isDigitDot)
    else searchPlainNum rest

/-- `re.search(r'([\d.]+)', s)` (no sign), used by `parse_price_string`
and `parse_voltage_string`. -/
def searchNumRun : List Char → Option (List Char)
  | [] => none
  | c :: rest =>
    if isDigitDot c then some ((c :: rest).takeWhile isDigitDot)
    else searchNumRun rest

/-- `float` of a scientific-notation match. -/
def sciToRat? (neg : Bool) (m : List Char) (eneg : Bool) (ds : List Char) : Option ℚ :=
  (mantissaToRat? m).map fun q =>
    let mag := q * (10 : ℚ) ^ (if eneg then -(digitsToNat ds : ℤ) else (digitsToNat ds : ℤ))
    if neg then -mag else mag

/-- `float` of a plain decimal match. -/
def plainToRat? (neg : Bool) (m : List Char) : Option ℚ :=
  (mantissaToRat? m).map fun q => if neg then -q else q

/-- The numeric-extraction loop of `parse_power_string`: try the
scientific-notation pattern, fall through to the plain pattern when the
match does not convert (`except ValueError: continue`), `None` when
nothing converts. -/
def powerNumericValue (cs : List Char) : Option ℚ :=
  let plain : Option ℚ :=
    match searchPlainNum cs with
    | some (neg, m) => plainToRat? neg m
    | none => none
  match searchSci cs with
  | some (neg, m, eneg, ds) =>
    match sciToRat? neg m eneg ds with
    | some q => some q
    | none => plain
  | none => plain

/-- Final range check of `parse_power_string`: round, then reject results
outside `0 ..= 2000` W.  (Python's `int(inf)` `OverflowError` is caught by
the outer handler and also yields `None`; in the exact model such inputs
produce a huge rational that fails the same range check.) -/
def powerFinalize (q : ℚ) : Option ℤ :=
  let r := pyRound q
  if r < 0 || 2000 < r then none else some r

/-- `UnitConverter.parse_power_string`: scientific notation, bare numbers,
`kW`/`kilowatt` suffix (×1000), rounding to nearest integer (ties away
from zero), range validation 0–2000 W. -/
def parse_power_string (s : String) : Option ℤ :=
  let stripped := pyStrip s.data
  if stripped.isEmpty then none
  else
    match powerNumericValue stripped with
    | none => none
    | some q0 =>
      let lower := pyLower stripped
      let q :=
        if chListInside "kw".data lower || chListInside "kilowatt".data lower then
          q0 * 1000
        else q0
      powerFinalize q

/-- `UnitConverter.parse_price_string`: strip `$` and `,`, extract the
first `[\d.]+` run, `round(value, 2)`. -/
def parse_price_string (s : String) : Option ℚ :=
  let cleaned := s.data.filter (fun c => !(c = '$' || c = ','))
  match searchNumRun cleaned with
  | none => none
  | some run => (mantissaToRat? run).map roundHE2

/-- `UnitConverter.parse_voltage_string`: extract the first `[\d.]+` run,
`round(value, 2)`. -/
def parse_voltage_string (s : String) : Option ℚ :=
  match searchNumRun s.data with
  | none => none
  | some run => (mantissaToRat? run).map roundHE2

/-! ### Properties of the rounding helpers -/

theorem pyRound_nonneg_eq (q : ℚ) (h : 0 ≤ q) : pyRound q = ⌊q + 1/2⌋ := by
  simp [pyRound, h]

theorem pyRound_neg_eq (q : ℚ) (h : ¬ 0 ≤ q) : pyRound q = ⌈q - 1/2⌉ := by
  simp [pyRound, h]

/-- `pyRound` is a nearest-integer rounding. -/
theorem pyRound_close (q : ℚ) : |(pyRound q : ℚ) - q| ≤ 1/2 := by
  rw [abs_le]
  by_cases h : 0 ≤ q
  · rw [pyRound_nonneg_eq q h]
    have h1 := Int.floor_le (q + 1/2)
    have h2 := Int.lt_floor_add_one (q + 1/2)
    constructor <;> linarith
  · rw [pyRound_neg_eq q h]
    have h1 := Int.le_ceil (q - 1/2)
    have h2 := Int.ceil_lt_add_one (q - 1/2)
    constructor <;> linarith

/-- At a tie (distance exactly 1/2), `pyRound` moves away from zero. -/
theorem pyRound_tie_away (q : ℚ) (h : |(pyRound q : ℚ) - q| = 1/2) :
    |(pyRound q : ℚ)| = |q| + 1/2 := by
  by_cases hq : 0 ≤ q
  · have hn : (0 : ℚ) ≤ (pyRound q : ℚ) := by
      rw [pyRound_nonneg_eq q hq]
      have : (0 : ℤ) ≤ ⌊q + 1/2⌋ := by
        apply Int.floor_nonneg.2; linarith
      exact_mod_cast this
    have h2 := Int.lt_floor_add_one (q + 1/2)
    rw [pyRound_nonneg_eq q hq] at h ⊢
    have heq : (⌊q + 1/2⌋ : ℚ) = q + 1/2 := by
      rcases abs_eq (by norm_num : (0:ℚ) ≤ 1/2) |>.1 h with h' | h'
      · linarith
      · exfalso; linarith
    rw [heq, abs_of_nonneg hq, abs_of_nonneg (by linarith : (0:ℚ) ≤ q + 1/2)]
  · push_neg at hq
    have hn : (pyRound q : ℚ) ≤ 0 := by
      rw [pyRound_neg_eq q (not_le.2 hq)]
      have : ⌈q - 1/2⌉ ≤ (0 : ℤ) := by
        apply Int.ceil_le.2; push_cast; linarith
      exact_mod_cast this
    have h2 := Int.ceil_lt_add_one (q - 1/2)
    rw [pyRound_neg_eq q (not_le.2 hq)] at h ⊢
    have heq : (⌈q - 1/2⌉ : ℚ) = q - 1/2 := by
      rcases abs_eq (by norm_num : (0:ℚ) ≤ 1/2) |>.1 h with h' | h'
      · exfalso; linarith
      · linarith
    rw [heq, abs_of_neg hq, abs_of_nonpos (by linarith : q - 1/2 ≤ (0:ℚ))]
    ring

/-- `round2up` rounds to a multiple of 1/100 within 1/200, ties away from zero. -/
theorem round2up_close (q : ℚ) : |round2up q - q| ≤ 1/200 := by
  have h := pyRound_close (q * 100)
  rw [round2up]
  have : (pyRound (q * 100) : ℚ) / 100 - q = ((pyRound (q * 100) : ℚ) - q * 100) / 100 := by
    ring
  rw [this, abs_div]
  rw [abs_of_pos (by norm_num : (0:ℚ) < 100)]
  linarith

theorem round2up_tie_away (q : ℚ) (h : |round2up q - q| = 1/200) :
    |round2up q| = |q| + 1/200 := by
  have hd : (round2up q - q) = ((pyRound (q * 100) : ℚ) - q * 100) / 100 := by
    rw [round2up]; ring
  have htie : |(pyRound (q * 100) : ℚ) - q * 100| = 1/2 := by
    have := h
    rw [hd, abs_div, abs_of_pos (by norm_num : (0:ℚ) < 100)] at this
    linarith
  have := pyRound_tie_away (q * 100) htie
  rw [round2up, abs_div, abs_of_pos (by norm_num : (0:ℚ) < 100), this, abs_mul]
  rw [abs_of_pos (by norm_num : (0:ℚ) < 100)]
  ring

theorem powerFinalize_range (q : ℚ) (v : ℤ) (h : powerFinalize q = some v) :
    0 ≤ v ∧ v ≤ 2000 := by
  rw [powerFinalize] at h
  split at h
  · exact absurd h (by simp)
  · rename_i hcond
    simp only [Option.some.injEq] at h
    subst h
    simp only [Bool.or_eq_true, decide_eq_true_eq, not_or] at hcond
    push_neg at hcond
    omega

/-- C1: `parse_power_string` supports scientific notation and a
`kW`/`kilowatt` suffix (×1000), rounds to the nearest integer with 0.5
rounding away from zero in the direction of the value's sign, and
validates the range 0–2000 W: whenever it returns a value the value lies
in 0–2000, values rounding outside that range give `none`
(`"3000 Watts"` and `"-100 Watts"` rejected), `"2000 Watts"` gives 2000
(boundary inclusive), `"8E+2 Watts"` gives 800, `"1.5kW"` gives 1500. -/
theorem claim_C1_parse_power_string :
    (∀ s v, parse_power_string s = some v → 0 ≤ v ∧ v ≤ 2000)
    ∧ (∀ q : ℚ, |(pyRound q : ℚ) - q| ≤ 1/2
        ∧ (|(pyRound q : ℚ) - q| = 1/2 → |(pyRound q : ℚ)| = |q| + 1/2))
    ∧ parse_power_string "2000 Watts" = some 2000
    ∧ parse_power_string "3000 Watts" = none
    ∧ parse_power_string "-100 Watts" = none
    ∧ parse_power_string "8E+2 Watts" = some 800
    ∧ parse_power_string "1.5kW" = some 1500 := by
  refine ⟨?_, fun q => ⟨pyRound_close q, pyRound_tie_away q⟩, ?_, ?_, ?_, ?_, ?_⟩
  · intro s v h
    rw [parse_power_string] at h
    split at h
    · exact absurd h (by simp)
    · split at h
      · exact absurd h (by simp)
      · exact powerFinalize_range _ _ h
  all_goals with_unfolding_all rfl

/-- Witness for C1 at concrete inputs. -/
theorem claim_C1_witness :
    ((0 : ℤ) ≤ 100 ∧ (100 : ℤ) ≤ 2000)
    ∧ |((pyRound (1/2 : ℚ) : ℤ) : ℚ)| = |(1/2 : ℚ)| + 1/2 :=
  ⟨claim_C1_parse_power_string.1 "100W" 100 (by with_unfolding_all rfl),
   (claim_C1_parse_power_string.2.1 (1/2)).2 (by
      have : pyRound (1/2 : ℚ) = 1 := by with_unfolding_all rfl
      rw [this]; norm_num)⟩

/-- C7: `inches_to_cm` multiplies by exactly 2.54 and `pounds_to_kg` by
exactly 0.453592, each rounded to 2 decimal places with ties away from
zero in exact decimal arithmetic; `inches_to_cm 45.67 = 116.00` and
`pounds_to_kg 15.87 = 7.20`. -/
theorem claim_C7_unit_conversions :
    inches_to_cm (4567/100) = 116
    ∧ pounds_to_kg (1587/100) = 36/5
    ∧ (∀ q : ℚ, |inches_to_cm q - q * (254/100)| ≤ 1/200
        ∧ ∃ n : ℤ, inches_to_cm q = (n : ℚ)/100)
    ∧ (∀ q : ℚ, |pounds_to_kg q - q * (453592/1000000)| ≤ 1/200
        ∧ ∃ n : ℤ, pounds_to_kg q = (n : ℚ)/100)
    ∧ (∀ q : ℚ, |round2up q - q| = 1/200 → |round2up q| = |q| + 1/200) := by
  refine ⟨by with_unfolding_all rfl, by with_unfolding_all rfl, ?_, ?_, ?_⟩
  · intro q
    exact ⟨round2up_close _, ⟨pyRound (q * (254/100) * 100), rfl⟩⟩
  · intro q
    exact ⟨round2up_close _, ⟨pyRound (q * (453592/1000000) * 100), rfl⟩⟩
  · intro q
    exact round2up_tie_away q

/-- Witness for C7's tie-rounding clause at a concrete input. -/
theorem claim_C7_witness : |round2up (1/200 : ℚ)| = |(1/200 : ℚ)| + 1/200 :=
  claim_C7_unit_conversions.2.2.2.2 (1/200) (by
    have : round2up (1/200 : ℚ) = 1/100 := by with_unfolding_all rfl
    rw [this]; norm_num)

/-! ### The candidate data model (`ExtractionCandidate`) -/

/-- A candidate's `value` field: Python `int`, `float`, 2-tuple of floats
(dimensions), or string.  The `isinstance` dispatch of the source is
mirrored by matching on the constructors. -/
inductive CandValue where
  | intV (z : ℤ)
  | floatV (q : ℚ)
  | pairV (a b : ℚ)
  | strV (s : String)
deriving DecidableEq

/-- Numeric content of a value (`isinstance(v, (int, float))`). -/
def CandValue.toRat? : CandValue → Option ℚ
  | .intV z => some (z : ℚ)
  | .floatV q => some q
  | _ => none

/-- The `meta` dict of an `ExtractionCandidate`; only keys used by the
source appear. -/
structure CandMeta where
  pieceCount : Option ℤ := none
  pattern : Option String := none
  perPanelWattage : Option ℤ := none
  totalWattage : Option ℤ := none
deriving DecidableEq

/-- `ExtractionCandidate`. -/
structure Candidate where
  field : String
  value : CandValue
  confidence : ℚ
  source : String
  raw : Option String := none
  meta : CandMeta := {}
deriving DecidableEq

/-! ### `SpecExtractor._boost_consensus`

The source groups candidates greedily: each candidate joins the first
group whose *first* member's value agrees with its own within the
tolerance, else starts a new group; then every member of a group of size
`n > 1` has its confidence raised by `min(0.15, 0.05*(n-1))`, capped at
0.99.  The in-place mutation is modelled by recomputing each candidate's
boosted confidence from its group, preserving list order. -/

/-- Value agreement as in `_boost_consensus`: dimension tuples
component-wise within tolerance, numerics within tolerance, everything
else by equality. -/
def valueAgrees (tol : ℚ) (ref v : CandValue) : Bool :=
  match ref, v with
  | .pairV a b, .pairV c d => |a - c| ≤ tol && |b - d| ≤ tol
  | .intV a, .intV b => |(a : ℚ) - (b : ℚ)| ≤ tol
  | .intV a, .floatV b => |(a : ℚ) - b| ≤ tol
  | .floatV a, .intV b => |a - (b : ℚ)| ≤ tol
  | .floatV a, .floatV b => |a - b| ≤ tol
  | r, w => r = w

/-- The group-reference values, in creation order: a candidate's value
becomes a new reference iff it agrees with no earlier reference. -/
def groupRefList (tol : ℚ) (cands : List Candidate) : List CandValue :=
  cands.foldl
    (fun refs c =>
      if (refs.find? (fun r => valueAgrees tol r c.value)).isSome then refs
      else refs ++ [c.value])
    []

/-- The reference of the group a value is assigned to (the first
agreeing reference, which always exists for members of the list). -/
def assignedRef (refs : List CandValue) (v : CandValue) : CandValue :=
  (refs.find? (fun r => valueAgrees (1/100) r v)).getD v

/-- Size of the group containing candidate `c`. -/
def groupSize (cands : List Candidate) (c : Candidate) : ℕ :=
  (cands.filter
    (fun d => assignedRef (groupRefList (1/100) cands) d.value
              = assignedRef (groupRefList (1/100) cands) c.value)).length

/-- The confidence of `c` after `_boost_consensus` has run on `cands`. -/
def boostedConf (cands : List Candidate) (c : Candidate) : ℚ :=
  let n := groupSize cands c
  if 1 < n then
    let bonus := min (15/100 : ℚ) (5/100 * ((n - 1 : ℕ) : ℚ))
    min (99/100) (c.confidence + bonus)
  else c.confidence

/-- `SpecExtractor._boost_consensus` (with the source's default tolerance
0.01), as a pure function on the candidate list. -/
def boost_consensus (cands : List Candidate) : List Candidate :=
  cands.map (fun c => { c with confidence := boostedConf cands c })

theorem boost_consensus_mem (cands : List Candidate) (c : Candidate) (h : c ∈ cands) :
    { c with confidence := boostedConf cands c } ∈ boost_consensus cands :=
  List.mem_map_of_mem _ h

theorem boost_bonus_nonneg (n : ℕ) : 0 ≤ min (15/100 : ℚ) (5/100 * ((n - 1 : ℕ) : ℚ)) := by
  apply le_min
  · norm_num
  · positivity

/-- The first `_boost_consensus` counterexample candidate: a spec-table
`maximum power` hit with the count×wattage bonus has confidence
`0.9 + 0.1 = 1.0` before consensus boosting. -/
def boostPairHi : Candidate :=
  { field := "wattage", value := .intV 100, confidence := 1,
    source := "product_information.maximum power", raw := some "2 x 100W",
    meta := { pieceCount := some 2, pattern := some "count_x_wattage" } }

/-- An agreeing second source for the counterexample. -/
def boostPairLo : Candidate :=
  { field := "wattage", value := .intV 100, confidence := 9/10,
    source := "title", raw := some "100W" }

/-- C5 counterexample: adding a second agreeing source *decreases* the
confidence of a candidate that is above the 0.99 cap (confidence 1.0 is
reachable: spec-table key `maximum power` (0.9) plus the count×wattage
pattern bonus (+0.1)).  Alone the candidate keeps confidence 1; with an
agreeing source its confidence becomes 0.99 < 1. -/
theorem claim_C5_counterexample :
    (boost_consensus [boostPairHi]).map Candidate.confidence = [1]
    ∧ (boost_consensus [boostPairHi, boostPairLo]).map Candidate.confidence
        = [99/100, 19/20]
    ∧ (99/100 : ℚ) < 1 :=
  ⟨by with_unfolding_all rfl, by with_unfolding_all rfl, by norm_num⟩

/-- C5 (amended): consensus boosting groups candidates of a field whose
values agree within ±0.01 (dimension pairs component-wise) and raises
each member of a group of size n > 1 by `min(0.15, 0.05*(n-1))`, capped
at 0.99; consequently, adding a second agreeing source never decreases a
candidate's confidence *provided that confidence is at most 0.99*
(a confidence above the cap is reduced to 0.99), and increases it by
exactly the documented bonus whenever the bonus does not push it past
the cap. -/
theorem claim_C5_boost_consensus (cands : List Candidate) (c : Candidate)
    (h : c ∈ cands) :
    ({ c with confidence := boostedConf cands c } ∈ boost_consensus cands)
    ∧ (1 < groupSize cands c →
        boostedConf cands c
          = min (99/100)
              (c.confidence + min (15/100) (5/100 * ((groupSize cands c - 1 : ℕ) : ℚ))))
    ∧ (groupSize cands c ≤ 1 → boostedConf cands c = c.confidence)
    ∧ (1 < groupSize cands c → boostedConf cands c ≤ 99/100)
    ∧ (c.confidence ≤ 99/100 → c.confidence ≤ boostedConf cands c)
    ∧ (1 < groupSize cands c →
        c.confidence + min (15/100) (5/100 * ((groupSize cands c - 1 : ℕ) : ℚ)) ≤ 99/100 →
        boostedConf cands c
          = c.confidence + min (15/100) (5/100 * ((groupSize cands c - 1 : ℕ) : ℚ))) := by
  refine ⟨boost_consensus_mem cands c h, ?_, ?_, ?_, ?_, ?_⟩
  · intro hn
    rw [boostedConf]
    simp only [hn, if_true]
  · intro hn
    rw [boostedConf]
    simp only [Nat.not_lt.2 hn, if_false]
  · intro hn
    rw [boostedConf]
    simp only [hn, if_true]
    exact min_le_left _ _
  · intro hc
    rw [boostedConf]
    split
    · exact le_min hc (le_add_of_nonneg_right (boost_bonus_nonneg _))
    · exact le_refl _
  · intro hn hb
    rw [boostedConf]
    simp only [hn, if_true]
    exact min_eq_right hb

/-- Witness candidates for C5: two agreeing sources below the cap. -/
def boostWitA : Candidate :=
  { field := "wattage", value := .intV 100, confidence := 7/10,
    source := "product_information.wattage" }

def boostWitB : Candidate :=
  { field := "wattage", value := .intV 100, confidence := 3/4,
    source := "feature_bullets" }

/-- Witness for C5 at a concrete input. -/
theorem claim_C5_witness :
    boostWitA.confidence ≤ boostedConf [boostWitA, boostWitB] boostWitA :=
  (claim_C5_boost_consensus [boostWitA, boostWitB] boostWitA
    (List.mem_cons_self _ _)).2.2.2.2.1 (by norm_num [boostWitA])

/-! ### `SpecExtractor.build_math_confirmed_piece_count` -/

/-- `source.split('.')[0]`. -/
def base_source (s : String) : String :=
  ⟨s.data.takeWhile (fun c => c ≠ '.')⟩

/-- Python `a or b` on optional strings (`''` is falsy). -/
def py_or_raw (a b : Option String) : Option String :=
  match a with
  | some s => if s = "" then b else some s
  | none => b

/-- The candidate emitted for a confirmed (per-panel, total) pair. -/
def math_candidate (per total : Candidate) (n w t : ℤ) : Candidate :=
  { field := "piece_count", value := .intV n,
    confidence := min (99/100) (max per.confidence total.confidence + 2/10),
    source := "math_confirmed." ++ per.source,
    raw := py_or_raw per.raw total.raw,
    meta := { pattern := some "count_x_wattage_math",
              perPanelWattage := some w, totalWattage := some t } }

/-- `confirmed[k] = candidate` guarded by
`if not existing or candidate.confidence > existing.confidence`:
insertion-ordered map update. -/
def confirmed_insert (acc : List (ℤ × Candidate)) (n : ℤ) (c : Candidate) :
    List (ℤ × Candidate) :=
  match acc with
  | [] => [(n, c)]
  | (k, e) :: rest =>
    if k = n then
      (if e.confidence < c.confidence then (k, c) :: rest else (k, e) :: rest)
    else (k, e) :: confirmed_insert rest n c

/-- `confirmed.get(k)`. -/
def assoc_find : List (ℤ × Candidate) → ℤ → Option Candidate
  | [], _ => none
  | (k, e) :: rest, n => if k = n then some e else assoc_find rest n

/-- Python `enumerate`, used to model the `total is per_panel` identity
check by index. -/
def with_indices_from (k : ℕ) : List Candidate → List (ℕ × Candidate)
  | [] => []
  | c :: cs => (k, c) :: with_indices_from (k + 1) cs

/-- Inner-loop step of `build_math_confirmed_piece_count`: one `total`
candidate checked against the current `per_panel` candidate. -/
def math_check_total (tol : ℚ) (per : Candidate) (n w : ℤ) (i : ℕ)
    (acc : List (ℤ × Candidate)) (jt : ℕ × Candidate) : List (ℤ × Candidate) :=
  if jt.1 = i then acc
  else
    match jt.2.value with
    | .intV t =>
      if base_source jt.2.source ≠ base_source per.source then acc
      else if tol < |(t : ℚ) - ((n * w : ℤ) : ℚ)| then acc
      else confirmed_insert acc n (math_candidate per jt.2 n w t)
    | _ => acc

/-- Outer-loop step: one `per_panel` candidate (skipped unless it has a
truthy `meta.piece_count` and an `int` value). -/
def math_outer_step (tol : ℚ) (indexed : List (ℕ × Candidate))
    (acc : List (ℤ × Candidate)) (ip : ℕ × Candidate) : List (ℤ × Candidate) :=
  match ip.2.meta.pieceCount, ip.2.value with
  | some n, .intV w =>
    if n = 0 then acc
    else indexed.foldl (math_check_total tol ip.2 n w ip.1) acc
  | _, _ => acc

/-- `SpecExtractor.build_math_confirmed_piece_count`. -/
def build_math_confirmed_piece_count (cands : List Candidate) (tol : ℚ := 1) :
    List Candidate :=
  let indexed := with_indices_from 0 cands
  (indexed.foldl (math_outer_step tol indexed) []).map Prod.snd

/-! #### Invariants of the confirmed map -/

theorem foldl_preserves {α β : Type} (f : β → α → β) (P : β → Prop)
    (hf : ∀ b a, P b → P (f b a)) : ∀ (l : List α) (b : β), P b → P (l.foldl f b) := by
  intro l
  induction l with
  | nil => intro b hb; exact hb
  | cons x xs ih => intro b hb; exact ih _ (hf b x hb)

theorem foldl_event {α β : Type} (f : β → α → β) (P : β → Prop)
    (hpres : ∀ b a, P b → P (f b a)) (l : List α) (x : α) (hx : x ∈ l)
    (hest : ∀ b, P (f b x)) : ∀ init, P (l.foldl f init) := by
  induction l with
  | nil => cases hx
  | cons y ys ih =>
    intro init
    rcases List.mem_cons.1 hx with rfl | hx'
    · rw [List.foldl_cons]
      exact foldl_preserves f P hpres ys _ (hest init)
    · rw [List.foldl_cons]
      exact ih hx' _

/-- Shape invariant of every entry ever inserted into the confirmed map. -/
def mathEntryProp (n : ℤ) (c : Candidate) : Prop :=
  c.field = "piece_count" ∧ c.value = .intV n
  ∧ (∃ r, c.source = "math_confirmed." ++ r) ∧ c.confidence ≤ 99/100

def mathAccProp (acc : List (ℤ × Candidate)) : Prop :=
  ∀ p ∈ acc, mathEntryProp p.1 p.2

theorem math_candidate_prop (per total : Candidate) (n w t : ℤ) :
    mathEntryProp n (math_candidate per total n w t) :=
  ⟨rfl, rfl, ⟨per.source, rfl⟩, min_le_left _ _⟩

theorem confirmed_insert_prop (acc : List (ℤ × Candidate)) (n : ℤ) (c : Candidate)
    (hacc : mathAccProp acc) (hc : mathEntryProp n c) :
    mathAccProp (confirmed_insert acc n c) := by
  induction acc with
  | nil =>
    intro p hp
    rcases List.mem_singleton.1 hp with rfl
    exact hc
  | cons hd rest ih =>
    obtain ⟨k, e⟩ := hd
    rw [confirmed_insert]
    have hke := hacc (k, e) (List.mem_cons_self _ _)
    have hrest : mathAccProp rest := fun p hp => hacc p (List.mem_cons_of_mem _ hp)
    split
    · rename_i hkn
      subst hkn
      split
      · intro p hp
        rcases List.mem_cons.1 hp with rfl | hp'
        · exact hc
        · exact hrest _ hp'
      · intro p hp
        rcases List.mem_cons.1 hp with rfl | hp'
        · exact hke
        · exact hrest _ hp'
    · intro p hp
      rcases List.mem_cons.1 hp with rfl | hp'
      · exact hke
      · exact ih hrest _ hp'

theorem math_check_total_prop (tol : ℚ) (per : Candidate) (n w : ℤ) (i : ℕ)
    (acc : List (ℤ × Candidate)) (jt : ℕ × Candidate) (hacc : mathAccProp acc) :
    mathAccProp (math_check_total tol per n w i acc jt) := by
  rw [math_check_total]
  split
  · exact hacc
  · split
    · split
      · exact hacc
      · split
        · exact hacc
        · exact confirmed_insert_prop _ _ _ hacc (math_candidate_prop _ _ _ _ _)
    · exact hacc

theorem math_outer_step_prop (tol : ℚ) (indexed : List (ℕ × Candidate))
    (acc : List (ℤ × Candidate)) (ip : ℕ × Candidate) (hacc : mathAccProp acc) :
    mathAccProp (math_outer_step tol indexed acc ip) := by
  rw [math_outer_step]
  split
  · split
    · exact hacc
    · exact foldl_preserves _ _ (fun b a hb => math_check_total_prop _ _ _ _ _ _ a hb)
        indexed acc hacc
  · exact hacc

/-- Lower bound on the stored confidence at a key. -/
def entryGe (acc : List (ℤ × Candidate)) (n : ℤ) (q : ℚ) : Prop :=
  ∃ c, assoc_find acc n = some c ∧ q ≤ c.confidence

theorem confirmed_insert_self (acc : List (ℤ × Candidate)) (n : ℤ) (c : Candidate) :
    entryGe (confirmed_insert acc n c) n c.confidence := by
  induction acc with
  | nil =>
    exact ⟨c, by rw [confirmed_insert, assoc_find, if_pos rfl], le_refl _⟩
  | cons hd rest ih =>
    obtain ⟨k, e⟩ := hd
    rw [confirmed_insert]
    split
    · rename_i hkn
      subst hkn
      split
      · exact ⟨c, by rw [assoc_find, if_pos rfl], le_refl _⟩
      · rename_i hlt
        exact ⟨e, by rw [assoc_find, if_pos rfl], le_of_not_lt hlt⟩
    · rename_i hkn
      obtain ⟨c', hfind, hge⟩ := ih
      exact ⟨c', by rw [assoc_find, if_neg hkn]; exact hfind, hge⟩

theorem confirmed_insert_mono (acc : List (ℤ × Candidate)) (m n : ℤ) (c : Candidate)
    (q : ℚ) (h : entryGe acc n q) : entryGe (confirmed_insert acc m c) n q := by
  induction acc with
  | nil =>
    obtain ⟨c', hfind, _⟩ := h
    rw [assoc_find] at hfind
    exact absurd hfind (by simp)
  | cons hd rest ih =>
    obtain ⟨k, e⟩ := hd
    obtain ⟨c', hfind, hge⟩ := h
    rw [confirmed_insert]
    split
    · rename_i hkm
      subst hkm
      split
      · rename_i hlt
        by_cases hkn : k = n
        · subst hkn
          rw [assoc_find, if_pos rfl] at hfind
          obtain rfl : e = c' := by injection hfind
          exact ⟨c, by rw [assoc_find, if_pos rfl], le_of_lt (lt_of_le_of_lt hge hlt)⟩
        · rw [assoc_find, if_neg hkn] at hfind
          exact ⟨c', by rw [assoc_find, if_neg hkn]; exact hfind, hge⟩
      · exact ⟨c', hfind, hge⟩
    · rename_i hkm
      by_cases hkn : k = n
      · subst hkn
        rw [assoc_find, if_pos rfl] at hfind
        obtain rfl : e = c' := by injection hfind
        exact ⟨e, by rw [assoc_find, if_pos rfl], hge⟩
      · rw [assoc_find, if_neg hkn] at hfind
        obtain ⟨c'', hfind'', hge''⟩ := ih ⟨c', hfind, hge⟩
        exact ⟨c'', by rw [assoc_find, if_neg hkn]; exact hfind'', hge''⟩

theorem math_check_total_mono (tol : ℚ) (per : Candidate) (nn w : ℤ) (i : ℕ)
    (acc : List (ℤ × Candidate)) (jt : ℕ × Candidate) (n : ℤ) (q : ℚ)
    (h : entryGe acc n q) : entryGe (math_check_total tol per nn w i acc jt) n q := by
  rw [math_check_total]
  split
  · exact h
  · split
    · split
      · exact h
      · split
        · exact h
        · exact confirmed_insert_mono _ _ _ _ _ h
    · exact h

theorem math_outer_step_mono (tol : ℚ) (indexed : List (ℕ × Candidate))
    (acc : List (ℤ × Candidate)) (ip : ℕ × Candidate) (n : ℤ) (q : ℚ)
    (h : entryGe acc n q) : entryGe (math_outer_step tol indexed acc ip) n q := by
  rw [math_outer_step]
  split
  · split
    · exact h
    · exact foldl_preserves _ (fun b => entryGe b n q)
        (fun b a hb => math_check_total_mono _ _ _ _ _ b a n q hb) indexed acc h
  · exact h

theorem assoc_find_mem (acc : List (ℤ × Candidate)) (n : ℤ) (c : Candidate)
    (h : assoc_find acc n = some c) : (n, c) ∈ acc := by
  induction acc with
  | nil => rw [assoc_find] at h; exact absurd h (by simp)
  | cons hd rest ih =>
    obtain ⟨k, e⟩ := hd
    rw [assoc_find] at h
    split at h
    · rename_i hkn
      subst hkn
      obtain rfl : e = c := by injection h
      exact List.mem_cons_self _ _
    · exact List.mem_cons_of_mem _ (ih h)

theorem with_indices_mem (k : ℕ) :
    ∀ (l : List Candidate) (i : ℕ) (c : Candidate), l[i]? = some c →
      (k + i, c) ∈ with_indices_from k l := by
  intro l
  induction l generalizing k with
  | nil => intro i c h; rw [List.getElem?_nil] at h; exact absurd h (by simp)
  | cons x xs ih =>
    intro i c h
    match i with
    | 0 =>
      rw [List.getElem?_cons_zero] at h
      obtain rfl : x = c := by injection h
      exact List.mem_cons_self _ _
    | i + 1 =>
      rw [List.getElem?_cons_succ] at h
      have := ih (k + 1) i c h
      have harith : k + 1 + i = k + (i + 1) := by omega
      rw [harith] at this
      exact List.mem_cons_of_mem _ this

/-- C3 (amended): for any pair of wattage candidates at distinct indices
and from the same base source, where one carries a truthy
`meta.piece_count` and an integer value and `piece_count × per-unit` is
within 1.0 W of the other's integer value,
`build_math_confirmed_piece_count` emits a piece_count candidate tagged
`math_confirmed.<source>` whose confidence is at most 0.99 and equals at
least `min(0.99, 0.2 + max of the two contributing confidences)`; in
particular it is greater than or equal to either contributing wattage
candidate's confidence *whenever those confidences are at most 0.99*
(a contributor may exceed 0.99, in which case the emitted candidate is
capped below it — see the counterexample). -/
theorem claim_C3_math_confirmed (cands : List Candidate) (i j : ℕ)
    (per tot : Candidate) (n w t : ℤ)
    (hi : cands[i]? = some per) (hj : cands[j]? = some tot) (hij : i ≠ j)
    (hn : per.meta.pieceCount = some n) (hn0 : n ≠ 0)
    (hw : per.value = .intV w) (ht : tot.value = .intV t)
    (hsrc : base_source tot.source = base_source per.source)
    (htol : |(t : ℚ) - ((n * w : ℤ) : ℚ)| ≤ 1) :
    ∃ c ∈ build_math_confirmed_piece_count cands,
      c.field = "piece_count" ∧ c.value = .intV n
      ∧ (∃ r, c.source = "math_confirmed." ++ r)
      ∧ c.confidence ≤ 99/100
      ∧ min (99/100) (max per.confidence tot.confidence + 2/10) ≤ c.confidence
      ∧ (per.confidence ≤ 99/100 → tot.confidence ≤ 99/100 →
          per.confidence ≤ c.confidence ∧ tot.confidence ≤ c.confidence) := by
  have hip : (i, per) ∈ with_indices_from 0 cands := by
    have := with_indices_mem 0 cands i per hi
    rwa [Nat.zero_add] at this
  have hjt : (j, tot) ∈ with_indices_from 0 cands := by
    have := with_indices_mem 0 cands j tot hj
    rwa [Nat.zero_add] at this
  set indexed := with_indices_from 0 cands with hindexed
  set conf : ℚ := min (99/100) (max per.confidence tot.confidence + 2/10) with hconf
  -- the final confirmed map
  set final := indexed.foldl (math_outer_step 1 indexed) [] with hfinal
  have hprop : mathAccProp final := by
    rw [hfinal]
    exact foldl_preserves _ _ (fun b a hb => math_outer_step_prop _ _ b a hb) indexed []
      (fun p hp => absurd hp (List.not_mem_nil p))
  have hge : entryGe final n conf := by
    rw [hfinal]
    apply foldl_event (math_outer_step 1 indexed) (fun b => entryGe b n conf)
      (fun b a hb => math_outer_step_mono _ _ b a n conf hb) indexed (i, per) hip
    -- the (i, per) step runs the inner loop and establishes the entry
    intro b
    rw [math_outer_step]
    simp only [hn, hw]
    rw [if_neg hn0]
    apply foldl_event (math_check_total 1 per n w i) (fun b => entryGe b n conf)
      (fun b a hb => math_check_total_mono _ _ _ _ _ b a n conf hb) indexed (j, tot) hjt
    -- the (j, tot) step inserts the confirmed candidate
    intro b'
    rw [math_check_total]
    simp only
    rw [if_neg (fun hji => hij hji.symm)]
    simp only [ht]
    rw [if_neg (fun hne => hne hsrc), if_neg (not_lt.2 htol)]
    exact confirmed_insert_self _ _ _
  obtain ⟨c, hfind, hgec⟩ := hge
  have hmem : (n, c) ∈ final := assoc_find_mem final n c hfind
  obtain ⟨hfield, hval, hsrc', hcap⟩ := hprop (n, c) hmem
  refine ⟨c, ?_, hfield, hval, hsrc', hcap, hgec, ?_⟩
  · rw [build_math_confirmed_piece_count]
    exact List.mem_map_of_mem Prod.snd hmem
  · intro hp ht'
    constructor
    · exact le_trans (le_min hp (le_trans (le_max_left _ _)
        (le_add_of_nonneg_right (by norm_num)))) hgec
    · exact le_trans (le_min ht' (le_trans (le_max_right _ _)
        (le_add_of_nonneg_right (by norm_num)))) hgec

/-- The per-panel candidate of the C3 counterexample: spec-table
`maximum power` with the count×wattage bonus, confidence 1.0. -/
def mathPairPer : Candidate :=
  { field := "wattage", value := .intV 100, confidence := 1,
    source := "product_information.maximum power", raw := some "2 x 100W",
    meta := { pieceCount := some 2, pattern := some "count_x_wattage" } }

/-- The total-wattage candidate of the C3 counterexample. -/
def mathPairTot : Candidate :=
  { field := "wattage", value := .intV 200, confidence := 9/10,
    source := "product_information.power", raw := some "200W" }

/-- C3 counterexample: with a contributing wattage candidate of
confidence 1.0 (reachable from the extractor), the emitted math-confirmed
candidate has confidence min(0.99, 1.2) = 0.99 < 1, so its confidence is
*not* greater than or equal to either contributing candidate's. -/
theorem claim_C3_counterexample :
    (build_math_confirmed_piece_count [mathPairPer, mathPairTot]).map Candidate.confidence
      = [99/100]
    ∧ mathPairPer.confidence = 1
    ∧ ¬ ((1 : ℚ) ≤ 99/100) :=
  ⟨by with_unfolding_all rfl, rfl, by norm_num⟩

/-- Witness candidates for C3 with both contributors below the cap. -/
def mathWitPer : Candidate :=
  { field := "wattage", value := .intV 100, confidence := 4/5,
    source := "feature_bullets", raw := some "2 x 100W",
    meta := { pieceCount := some 2, pattern := some "count_x_wattage" } }

def mathWitTot : Candidate :=
  { field := "wattage", value := .intV 200, confidence := 7/10,
    source := "feature_bullets", raw := some "solar kit 200W" }

/-- Witness for C3 at a concrete input. -/
theorem claim_C3_witness :
    ∃ c ∈ build_math_confirmed_piece_count [mathWitPer, mathWitTot],
      c.field = "piece_count" ∧ c.value = .intV 2
      ∧ mathWitPer.confidence ≤ c.confidence ∧ mathWitTot.confidence ≤ c.confidence := by
  obtain ⟨c, hmem, hfield, hval, _, _, _, himp⟩ :=
    claim_C3_math_confirmed [mathWitPer, mathWitTot] 0 1 mathWitPer mathWitTot 2 100 200
      (by with_unfolding_all rfl) (by with_unfolding_all rfl) (by decide)
      rfl (by decide) rfl rfl (by with_unfolding_all rfl) (by norm_num)
  obtain ⟨h1, h2⟩ := himp (by norm_num [mathWitPer]) (by norm_num [mathWitTot])
  exact ⟨c, hmem, hfield, hval, h1, h2⟩

/-! ### `UnitConverter.parse_dimension_string`

The regex layer of `parse_dimension_string` (labelled `L/W/H` finds,
the `a x b x c <unit>`, bare `a x b x c` and `a x b <unit>` searches, and
the text-based unit guess) is taken as a parameter (`DimExtraction`):
the theorems quantify over *all* possible match results, so they cover
the behaviour on every input string.  Pattern-priority fall-through,
unit conversion, unit guessing from magnitudes, positivity filtering,
sorting and rounding are modelled from the source.  A `float()` failure
inside a pattern aborts the whole parse with `None` in the source
(caught `ValueError`); the model's oracle carries already-converted
numbers, which only enlarges the set of `some` results the universally
quantified theorems cover. -/

inductive DimUnit where
  | uIn | uCm | uMm | uM
deriving DecidableEq

/-- `to_cm`: per-token conversion to centimetres. -/
def to_cm (value : ℚ) : Option DimUnit → ℚ
  | some .uIn => inches_to_cm value
  | some .uMm => roundHE2 (value / 10)
  | some .uM => roundHE2 (value * 100)
  | _ => roundHE2 value

/-- `guess_unit_from_values`: max ≤ 20 means inches, else centimetres. -/
def guess_unit_from_values : List ℚ → Option DimUnit
  | [] => none
  | v :: vs => some (if vs.foldl max v ≤ 20 then .uIn else .uCm)

/-- Python `list.sort(reverse=True)`, as insertion sort (stable,
descending). -/
def insertDesc (x : ℚ) : List ℚ → List ℚ
  | [] => [x]
  | y :: ys => if y < x then x :: y :: ys else y :: insertDesc x ys

def sortDesc (l : List ℚ) : List ℚ := l.foldr insertDesc []

theorem insertDesc_perm (x : ℚ) (l : List ℚ) : List.Perm (insertDesc x l) (x :: l) := by
  induction l with
  | nil => exact List.Perm.refl _
  | cons y ys ih =>
    rw [insertDesc]
    split
    · exact List.Perm.refl _
    · exact (ih.cons y).trans (List.Perm.swap x y ys)

theorem sortDesc_perm (l : List ℚ) : List.Perm (sortDesc l) l := by
  induction l with
  | nil => exact List.Perm.refl _
  | cons x xs ih =>
    rw [sortDesc, List.foldr_cons]
    exact (insertDesc_perm x _).trans (ih.cons x)

theorem insertDesc_sorted (x : ℚ) (l : List ℚ) (h : List.Sorted (· ≥ ·) l) :
    List.Sorted (· ≥ ·) (insertDesc x l) := by
  induction l with
  | nil => simp [insertDesc]
  | cons y ys ih =>
    rw [insertDesc]
    rw [List.sorted_cons] at h
    split
    · rename_i hyx
      rw [List.sorted_cons]
      refine ⟨?_, List.sorted_cons.2 h⟩
      intro b hb
      rcases List.mem_cons.1 hb with rfl | hb'
      · exact le_of_lt hyx
      · exact le_trans (h.1 b hb') (le_of_lt hyx)
    · rename_i hyx
      rw [List.sorted_cons]
      refine ⟨?_, ih h.2⟩
      intro b hb
      rcases List.mem_cons.1 ((insertDesc_perm x ys).mem_iff.1 hb) with rfl | hb'
      · exact le_of_not_lt hyx
      · exact h.1 b hb'

theorem sortDesc_sorted (l : List ℚ) : List.Sorted (· ≥ ·) (sortDesc l) := by
  induction l with
  | nil => simp [sortDesc]
  | cons x xs ih =>
    rw [sortDesc, List.foldr_cons]
    exact insertDesc_sorted x _ ih

/-- `select_length_width`: keep the positive values, return the two
largest (rounded to 2 decimals), `None` when fewer than two survive. -/
def select_length_width (values_cm : List ℚ) : Option (ℚ × ℚ) :=
  let cleaned := values_cm.filter (fun v => 0 < v)
  if cleaned.length < 2 then none
  else
    match sortDesc cleaned with
    | a :: b :: _ => some (roundHE2 a, roundHE2 b)
    | _ => none

/-- The regex-layer results for one input string. -/
structure DimExtraction where
  /-- values (with optional per-token unit) found by the two labelled
  `L/W/H` patterns, in match order. -/
  labeledValues : List (ℚ × Option DimUnit)
  /-- `guess_unit_from_text` result. -/
  textUnit : Option DimUnit
  /-- `a x b x c <unit>` match. -/
  threeWithUnit : Option (ℚ × ℚ × ℚ × DimUnit)
  /-- bare `a x b x c` match. -/
  threeBare : Option (ℚ × ℚ × ℚ)
  /-- `a x b <unit>` match. -/
  twoWithUnit : Option (ℚ × ℚ × DimUnit)

/-- Conversion of the labelled values: per-token unit if present, else
the text guess, else the magnitude guess. -/
def labeled_converted (ext : DimExtraction) : List ℚ :=
  let fallback :=
    match ext.textUnit with
    | some u => some u
    | none => guess_unit_from_values (ext.labeledValues.map Prod.fst)
  ext.labeledValues.map (fun p =>
    to_cm p.1 (match p.2 with
               | some u => some u
               | none => fallback))

/-- The converted value lists of the four pattern stages, in the
source's priority order (`none` = the pattern did not fire). -/
def dim_stages (ext : DimExtraction) : List (Option (List ℚ)) :=
  [ (if 2 ≤ ext.labeledValues.length then some (labeled_converted ext) else none),
    ext.threeWithUnit.map (fun p =>
      [to_cm p.1 (some p.2.2.2), to_cm p.2.1 (some p.2.2.2), to_cm p.2.2.1 (some p.2.2.2)]),
    ext.threeBare.map (fun p =>
      let u := guess_unit_from_values [p.1, p.2.1, p.2.2]
      [to_cm p.1 u, to_cm p.2.1 u, to_cm p.2.2 u]),
    ext.twoWithUnit.map (fun p => [to_cm p.1 (some p.2.2), to_cm p.2.1 (some p.2.2)]) ]

/-- Priority fall-through: first stage whose selection succeeds wins. -/
def first_hit : List (Option (List ℚ)) → Option (ℚ × ℚ)
  | [] => none
  | none :: rest => first_hit rest
  | some vs :: rest =>
    match select_length_width vs with
    | some r => some r
    | none => first_hit rest

/-- `UnitConverter.parse_dimension_string` over the regex-layer
results. -/
def parse_dimension_string (ext : DimExtraction) : Option (ℚ × ℚ) :=
  first_hit (dim_stages ext)

theorem halfEven_bounds (q : ℚ) : ⌊q⌋ ≤ halfEven q ∧ halfEven q ≤ ⌊q⌋ + 1 := by
  rw [halfEven]
  split_ifs <;> omega

theorem halfEven_mono {x y : ℚ} (h : x ≤ y) : halfEven x ≤ halfEven y := by
  have hf := Int.floor_mono h
  rcases lt_or_eq_of_le hf with hlt | heq
  · have hx := (halfEven_bounds x).2
    have hy := (halfEven_bounds y).1
    omega
  · have hfq : ((⌊x⌋ : ℤ) : ℚ) = ((⌊y⌋ : ℤ) : ℚ) := by rw [heq]
    have hr : x - ⌊x⌋ ≤ y - ⌊y⌋ := by rw [← hfq]; linarith
    rw [halfEven, halfEven]
    simp only [Int.even_iff] at *
    split_ifs <;> first | omega | (exfalso; linarith)

theorem roundHE2_mono {x y : ℚ} (h : x ≤ y) : roundHE2 x ≤ roundHE2 y := by
  have := halfEven_mono (by linarith : x * 100 ≤ y * 100)
  have hc : ((halfEven (x * 100) : ℤ) : ℚ) ≤ ((halfEven (y * 100) : ℤ) : ℚ) := by
    exact_mod_cast this
  rw [roundHE2, roundHE2]
  linarith

/-- The two-largest property of `select_length_width`. -/
theorem select_length_width_spec (vs : List ℚ) (l w : ℚ)
    (h : select_length_width vs = some (l, w)) :
    ∃ a b, a ∈ vs.filter (fun v => 0 < v)
      ∧ b ∈ (vs.filter (fun v => 0 < v)).erase a
      ∧ (∀ x ∈ vs.filter (fun v => 0 < v), x ≤ a)
      ∧ (∀ x ∈ (vs.filter (fun v => 0 < v)).erase a, x ≤ b)
      ∧ l = roundHE2 a ∧ w = roundHE2 b ∧ b ≤ a := by
  rw [select_length_width] at h
  split at h
  · exact absurd h (by simp)
  · rename_i hlen
    set cleaned := vs.filter (fun v => 0 < v) with hc
    split at h
    · rename_i a b rest hsort
      obtain ⟨rfl, rfl⟩ : l = roundHE2 a ∧ w = roundHE2 b := by
        constructor <;> injection h with h1 <;> simp_all
      have hperm : List.Perm (sortDesc cleaned) cleaned := sortDesc_perm cleaned
      have hsorted := sortDesc_sorted cleaned
      rw [hsort] at hperm hsorted
      rw [List.sorted_cons] at hsorted
      have hsorted2 := hsorted.2
      rw [List.sorted_cons] at hsorted2
      have hamem : a ∈ cleaned := hperm.mem_iff.1 (List.mem_cons_self _ _)
      have herase : List.Perm ((a :: b :: rest).erase a) (cleaned.erase a) := List.Perm.erase a hperm
      rw [List.erase_cons_head] at herase
      refine ⟨a, b, hamem, herase.mem_iff.1 (List.mem_cons_self _ _), ?_, ?_, rfl, rfl, ?_⟩
      · intro x hx
        rcases List.mem_cons.1 (hperm.symm.mem_iff.1 hx) with rfl | hx'
        · exact le_refl x
        · exact hsorted.1 x hx'
      · intro x hx
        rcases List.mem_cons.1 (herase.symm.mem_iff.1 hx) with rfl | hx'
        · exact le_refl x
        · exact hsorted2.1 x hx'
      · exact hsorted.1 b (List.mem_cons_self _ _)
    · exact absurd h (by simp)

/-- Selection failure when fewer than two positive values survive. -/
theorem select_length_width_short (vs : List ℚ)
    (h : (vs.filter (fun v => 0 < v)).length < 2) :
    select_length_width vs = none := by
  rw [select_length_width]
  simp only [h, if_pos]

/-- Every `some` result of the fall-through comes from a stage. -/
theorem first_hit_some (stages : List (Option (List ℚ))) (l w : ℚ)
    (h : first_hit stages = some (l, w)) :
    ∃ vs, some vs ∈ stages ∧ select_length_width vs = some (l, w) := by
  induction stages with
  | nil => rw [first_hit] at h; exact absurd h (by simp)
  | cons s rest ih =>
    match s with
    | none =>
      rw [first_hit] at h
      obtain ⟨vs, hmem, hsel⟩ := ih h
      exact ⟨vs, List.mem_cons_of_mem _ hmem, hsel⟩
    | some vs =>
      rw [first_hit] at h
      split at h
      · rename_i r hr
        obtain rfl : r = (l, w) := by injection h
        exact ⟨vs, List.mem_cons_self _ _, hr⟩
      · obtain ⟨vs', hmem, hsel⟩ := ih h
        exact ⟨vs', List.mem_cons_of_mem _ hmem, hsel⟩

theorem first_hit_none (stages : List (Option (List ℚ)))
    (h : ∀ vs, some vs ∈ stages → select_length_width vs = none) :
    first_hit stages = none := by
  induction stages with
  | nil => rw [first_hit]
  | cons s rest ih =>
    match s with
    | none =>
      rw [first_hit]
      exact ih (fun vs hv => h vs (List.mem_cons_of_mem _ hv))
    | some vs =>
      rw [first_hit, h vs (List.mem_cons_self _ _)]
      exact ih (fun vs' hv => h vs' (List.mem_cons_of_mem _ hv))

/-- C2: whenever `parse_dimension_string` returns a result, the result
is the pair of the two largest positive converted-to-cm values of the
matching pattern stage, returned as `(length_cm, width_cm)` with
`length_cm ≥ width_cm` regardless of the order the numbers appeared;
it returns `none` when every stage yields fewer than two usable
(positive) numbers. -/
theorem claim_C2_parse_dimension_string (ext : DimExtraction) :
    (∀ l w, parse_dimension_string ext = some (l, w) →
      w ≤ l ∧ ∃ vs, some vs ∈ dim_stages ext
        ∧ select_length_width vs = some (l, w)
        ∧ ∃ a b, a ∈ vs.filter (fun v => 0 < v)
            ∧ b ∈ (vs.filter (fun v => 0 < v)).erase a
            ∧ (∀ x ∈ vs.filter (fun v => 0 < v), x ≤ a)
            ∧ (∀ x ∈ (vs.filter (fun v => 0 < v)).erase a, x ≤ b)
            ∧ l = roundHE2 a ∧ w = roundHE2 b)
    ∧ ((∀ vs, some vs ∈ dim_stages ext → (vs.filter (fun v => 0 < v)).length < 2) →
        parse_dimension_string ext = none) := by
  constructor
  · intro l w h
    rw [parse_dimension_string] at h
    obtain ⟨vs, hmem, hsel⟩ := first_hit_some _ _ _ h
    obtain ⟨a, b, ha, hb, hmax, hmax2, rfl, rfl, hba⟩ := select_length_width_spec vs _ _ hsel
    exact ⟨roundHE2_mono hba,
      vs, hmem, hsel, a, b, ha, hb, hmax, hmax2, rfl, rfl⟩
  · intro h
    rw [parse_dimension_string]
    exact first_hit_none _ (fun vs hv => select_length_width_short vs (h vs hv))

/-- Witness input for C2: `"17.71 x 45.67 x 1.18 inches"`
(width listed before length). -/
def dimWitness : DimExtraction :=
  { labeledValues := [], textUnit := some .uIn,
    threeWithUnit := some (1771/100, 4567/100, 118/100, .uIn),
    threeBare := none, twoWithUnit := none }

/-- Witness for C2 at a concrete input: the parser reorders to
`(116.00, 44.98)`. -/
theorem claim_C2_witness :
    parse_dimension_string dimWitness = some (116, 2249/50)
    ∧ ((2249/50 : ℚ) ≤ 116
      ∧ ∃ vs, some vs ∈ dim_stages dimWitness
        ∧ select_length_width vs = some (116, 2249/50)
        ∧ ∃ a b, a ∈ vs.filter (fun v => 0 < v)
            ∧ b ∈ (vs.filter (fun v => 0 < v)).erase a
            ∧ (∀ x ∈ vs.filter (fun v => 0 < v), x ≤ a)
            ∧ (∀ x ∈ (vs.filter (fun v => 0 < v)).erase a, x ≤ b)
            ∧ (116 : ℚ) = roundHE2 a ∧ (2249/50 : ℚ) = roundHE2 b) :=
  ⟨by with_unfolding_all rfl,
   (claim_C2_parse_dimension_string dimWitness).1 116 (2249/50)
     (by with_unfolding_all rfl)⟩

/-! ### `SpecExtractor._add_wattage_candidates_from_text` / `extract_wattage`

The regex layer (the three count×wattage patterns, the simple-wattage
`finditer`, and the ±30-character noise-window checks) is taken as a
parameter (`WattageTextMatches`); the strings matched by the wattage
groups are carried verbatim and fed to the concrete
`parse_power_string`.  The theorems quantify over all possible match
results.  Control flow is modelled from the source: a noise hit on one
of the three pattern matches returns the candidates accumulated so far;
a falsy parse result (`None` or `0`) skips candidate creation. -/

/-- One match of a count×wattage pattern: full matched text, the wattage
group substring, the count group, and the noise-window verdict. -/
structure WattMatch where
  raw : String
  wattsText : String
  count : ℤ
  noise : Bool

/-- One match of the simple-wattage pattern; `parse_power_string` is
applied to the full matched text. -/
structure SimpleWattMatch where
  raw : String
  noise : Bool

/-- The regex-layer results for one text source. -/
structure WattageTextMatches where
  countX : Option WattMatch
  xCount : Option WattMatch
  pcs : Option WattMatch
  simple : List SimpleWattMatch

/-- Candidate built for a count×wattage match. -/
def watt_pattern_candidate (v : ℤ) (m : WattMatch) (source patName : String)
    (base : ℚ) : Candidate :=
  { field := "wattage", value := .intV v, confidence := base + 1/10,
    source := source, raw := some m.raw,
    meta := { pieceCount := some m.count, pattern := some patName } }

/-- One of the three pattern blocks.  `Sum.inl` is the early
`return candidates` taken on a noise hit; `Sum.inr` continues. -/
def watt_pattern_step (acc : List Candidate) (m : Option WattMatch)
    (source patName : String) (base : ℚ) :
    Sum (List Candidate) (List Candidate) :=
  match m with
  | none => Sum.inr acc
  | some wm =>
    if wm.noise then Sum.inl acc
    else
      match parse_power_string wm.wattsText with
      | some v =>
        if v = 0 then Sum.inr acc
        else Sum.inr (acc ++ [watt_pattern_candidate v wm source patName base])
      | none => Sum.inr acc

/-- One simple-wattage match inside the `finditer` loop. -/
def watt_simple_step (source : String) (base : ℚ) (acc : List Candidate)
    (m : SimpleWattMatch) : List Candidate :=
  if m.noise then acc
  else
    match parse_power_string m.raw with
    | some v =>
      if v = 0 then acc
      else acc ++ [{ field := "wattage", value := .intV v, confidence := base,
                     source := source, raw := some m.raw }]
    | none => acc

/-- `SpecExtractor._add_wattage_candidates_from_text` over the
regex-layer results. -/
def add_wattage_candidates_from_text (m : WattageTextMatches) (source : String)
    (base : ℚ) : List Candidate :=
  match watt_pattern_step [] m.countX source "count_x_wattage" base with
  | .inl res => res
  | .inr acc1 =>
    match watt_pattern_step acc1 m.xCount source "wattage_x_count" base with
    | .inl res => res
    | .inr acc2 =>
      match watt_pattern_step acc2 m.pcs source "count_pcs_wattage" base with
      | .inl res => res
      | .inr acc3 => m.simple.foldl (watt_simple_step source base) acc3

/-- `SpecExtractor.extract_wattage`: concatenate the per-source
candidate lists (spec table, feature bullets, title, description — any
combination of sources is covered by quantifying over the list), then
apply consensus boosting. -/
def extract_wattage (sources : List (WattageTextMatches × String × ℚ)) :
    List Candidate :=
  boost_consensus
    ((sources.map (fun p => add_wattage_candidates_from_text p.1 p.2.1 p.2.2)).flatten)

/-- Range of any non-`None` `parse_power_string` result. -/
theorem parse_power_string_range (s : String) (v : ℤ)
    (h : parse_power_string s = some v) : 0 ≤ v ∧ v ≤ 2000 := by
  rw [parse_power_string] at h
  split at h
  · exact absurd h (by simp)
  · split at h
    · exact absurd h (by simp)
    · exact powerFinalize_range _ _ h

/-- Shape invariant of every emitted wattage candidate. -/
def wattCandProp (c : Candidate) : Prop :=
  c.field = "wattage" ∧ ∃ v : ℤ, c.value = .intV v ∧ 1 ≤ v ∧ v ≤ 2000

theorem watt_pattern_step_prop (acc : List Candidate) (m : Option WattMatch)
    (source patName : String) (base : ℚ) (hacc : ∀ c ∈ acc, wattCandProp c) :
    (∀ res, watt_pattern_step acc m source patName base = .inl res →
        ∀ c ∈ res, wattCandProp c)
    ∧ (∀ acc', watt_pattern_step acc m source patName base = .inr acc' →
        ∀ c ∈ acc', wattCandProp c) := by
  rw [watt_pattern_step.eq_def]
  match m with
  | none =>
    exact ⟨fun res hres => absurd hres (by simp),
           fun acc' hacc' => by injection hacc' with h; exact h ▸ hacc⟩
  | some wm =>
    simp only
    split
    · exact ⟨fun res hres => by injection hres with h; exact h ▸ hacc,
             fun acc' hacc' => absurd hacc' (by simp)⟩
    · split
      · rename_i v hv
        split
        · exact ⟨fun res hres => absurd hres (by simp),
                 fun acc' hacc' => by injection hacc' with h; exact h ▸ hacc⟩
        · rename_i hv0
          refine ⟨fun res hres => absurd hres (by simp), fun acc' hacc' => ?_⟩
          injection hacc' with h
          subst h
          intro c hc
          rcases List.mem_append.1 hc with hc' | hc'
          · exact hacc c hc'
          · rcases List.mem_singleton.1 hc' with rfl
            obtain ⟨h0, h2000⟩ := parse_power_string_range _ _ hv
            exact ⟨rfl, v, rfl, by omega, h2000⟩
      · exact ⟨fun res hres => absurd hres (by simp),
               fun acc' hacc' => by injection hacc' with h; exact h ▸ hacc⟩

theorem watt_simple_step_prop (source : String) (base : ℚ) (acc : List Candidate)
    (m : SimpleWattMatch) (hacc : ∀ c ∈ acc, wattCandProp c) :
    ∀ c ∈ watt_simple_step source base acc m, wattCandProp c := by
  rw [watt_simple_step]
  split
  · exact hacc
  · split
    · rename_i v hv
      split
      · exact hacc
      · rename_i hv0
        intro c hc
        rcases List.mem_append.1 hc with hc' | hc'
        · exact hacc c hc'
        · rcases List.mem_singleton.1 hc' with rfl
          obtain ⟨h0, h2000⟩ := parse_power_string_range _ _ hv
          exact ⟨rfl, v, rfl, by omega, h2000⟩
    · exact hacc

theorem add_wattage_candidates_prop (m : WattageTextMatches) (source : String)
    (base : ℚ) :
    ∀ c ∈ add_wattage_candidates_from_text m source base, wattCandProp c := by
  rw [add_wattage_candidates_from_text]
  have h0 : ∀ c ∈ ([] : List Candidate), wattCandProp c := by simp
  have s1 := watt_pattern_step_prop [] m.countX source "count_x_wattage" base h0
  split
  · rename_i res hres; exact s1.1 res hres
  · rename_i acc1 hacc1
    have hacc1' := s1.2 acc1 hacc1
    have s2 := watt_pattern_step_prop acc1 m.xCount source "wattage_x_count" base hacc1'
    split
    · rename_i res hres; exact s2.1 res hres
    · rename_i acc2 hacc2
      have hacc2' := s2.2 acc2 hacc2
      have s3 := watt_pattern_step_prop acc2 m.pcs source "count_pcs_wattage" base hacc2'
      split
      · rename_i res hres; exact s3.1 res hres
      · rename_i acc3 hacc3
        have hacc3' := s3.2 acc3 hacc3
        exact foldl_preserves (watt_simple_step source base)
          (fun l => ∀ c ∈ l, wattCandProp c)
          (fun b a hb => watt_simple_step_prop source base b a hb)
          m.simple acc3 hacc3'

/-- Consensus boosting changes only confidences. -/
theorem boost_consensus_value (l : List Candidate) (c : Candidate)
    (h : c ∈ boost_consensus l) :
    ∃ c₀ ∈ l, c.value = c₀.value ∧ c.field = c₀.field := by
  rw [boost_consensus] at h
  obtain ⟨c₀, hc₀, rfl⟩ := List.mem_map.1 h
  exact ⟨c₀, hc₀, rfl, rfl⟩

/-- C10: every wattage candidate emitted by the extractor (from any text
source and any regex-match outcome) has an integer value v with
1 ≤ v ≤ 2000: `parse_power_string` never returns a non-null value
outside 0–2000, and a parse result of 0 or `None` creates no
candidate. -/
theorem claim_C10_wattage_candidate_range :
    (∀ s v, parse_power_string s = some v → 0 ≤ v ∧ v ≤ 2000)
    ∧ ∀ sources, ∀ c ∈ extract_wattage sources,
        c.field = "wattage" ∧ ∃ v : ℤ, c.value = .intV v ∧ 1 ≤ v ∧ v ≤ 2000 := by
  refine ⟨parse_power_string_range, ?_⟩
  intro sources c hc
  obtain ⟨c₀, hc₀, hval, hfield⟩ := boost_consensus_value _ c hc
  obtain ⟨blk, hblk, hc₀blk⟩ := List.mem_flatten.1 hc₀
  obtain ⟨p, _, rfl⟩ := List.mem_map.1 hblk
  obtain ⟨hf, v, hv, h1, h2⟩ := add_wattage_candidates_prop p.1 p.2.1 p.2.2 c₀ hc₀blk
  exact ⟨hfield.trans hf, v, hval.trans hv, h1, h2⟩

/-- Witness sources for C10: a single `"100W"` title match. -/
def wattWitSources : List (WattageTextMatches × String × ℚ) :=
  [⟨⟨none, none, none, [⟨"100W", false⟩]⟩, "title", 6/10⟩]

/-- The candidate the witness sources produce. -/
def wattWitCand : Candidate :=
  { field := "wattage", value := .intV 100, confidence := 6/10,
    source := "title", raw := some "100W" }

/-- Witness for C10 at a concrete input. -/
theorem claim_C10_witness :
    wattWitCand.field = "wattage"
    ∧ ∃ v : ℤ, wattWitCand.value = .intV v ∧ 1 ≤ v ∧ v ≤ 2000 :=
  claim_C10_wattage_candidate_range.2 wattWitSources wattWitCand (by
    have h : extract_wattage wattWitSources = [wattWitCand] := by
      with_unfolding_all rfl
    rw [h]
    exact List.mem_cons_self _ _)

/-! ### `ScraperAPIParser.parse_product_data`

The `SpecExtractor` candidate lists are taken as a parameter
(`ExtractorOutput`); the claims about `parse_product_data` concern
required-field handling, selection thresholds, failure bookkeeping and
the price branch, all of which are modelled concretely below.  The
`extraction_evidence` audit map (a serialization of the same candidate
lists) is not modelled: no claim mentions it.  The
math-confirmed extension of the piece-count candidate list
(`piece_count_candidates.extend(build_math_confirmed_piece_count(...))`)
is applied inside `piece_select`. -/

def validate_dimensions : CandValue → Bool
  | .pairV l w => (0 < l) && (0 < w) && (w ≤ l) && (l ≤ 400) && (w ≤ 400)
  | _ => false

def validate_weight : CandValue → Bool
  | .intV z => (1/10 ≤ (z : ℚ)) && ((z : ℚ) ≤ 100)
  | .floatV q => (1/10 ≤ q) && (q ≤ 100)
  | _ => false

def validate_wattage : CandValue → Bool
  | .intV z => (5 ≤ z) && (z ≤ 2000)
  | _ => false

def validate_piece_count : CandValue → Bool
  | .intV z => (1 ≤ z) && (z ≤ 50)
  | _ => false

def validate_voltage : CandValue → Bool
  | .intV z => (1 ≤ (z : ℚ)) && ((z : ℚ) ≤ 200)
  | .floatV q => (1 ≤ q) && (q ≤ 200)
  | _ => false

/-- `sorted(candidates, key=lambda c: (-c.confidence, c.source))`:
`a` sorts before (or ties with) `b`. -/
def cand_le (a b : Candidate) : Bool :=
  (b.confidence < a.confidence)
  || (a.confidence = b.confidence && !(b.source < a.source))

/-- Stable insertion sort for the candidate ordering. -/
def insertCand (le : Candidate → Candidate → Bool) (x : Candidate) :
    List Candidate → List Candidate
  | [] => [x]
  | y :: ys => if le x y then x :: y :: ys else y :: insertCand le x ys

def sortCand (le : Candidate → Candidate → Bool) (l : List Candidate) :
    List Candidate :=
  l.foldr (insertCand le) []

/-- `f"{confidence:.2f}"` on the exact rational value. -/
def fmtConf (q : ℚ) : String :=
  let n := halfEven (q * 100)
  let m := n.natAbs
  (if n < 0 then "-" else "")
    ++ toString (m / 100) ++ "."
    ++ (if m % 100 < 10 then "0" else "") ++ toString (m % 100)

/-- `select_field` inside `parse_product_data`: sort by (-confidence,
source), walk to the first validated candidate (`_select_best`), apply
the threshold; returns `(value, missing_fields additions,
parsing_failures additions)`. -/
def select_field (label : String) (cands : List Candidate) (threshold : ℚ)
    (validator : CandValue → Bool) (missing_key : Option String)
    (track_missing log_failures : Bool) :
    Option CandValue × List String × List String :=
  let sorted := sortCand cand_le cands
  match sorted.find? (fun c => validator c.value) with
  | none =>
    (none,
     if track_missing then missing_key.toList else [],
     if log_failures then ["No " ++ label ++ " candidates"] else [])
  | some best =>
    if best.confidence < threshold then
      (none,
       if track_missing then missing_key.toList else [],
       if log_failures then
         ["Low confidence " ++ label ++ " (" ++ fmtConf best.confidence
           ++ ") from " ++ best.source]
       else [])
    else (some best.value, [], [])

/-- The input contract of `parse_product_data` (§6 of the spec): the
relevant top-level fields of the raw ScraperAPI response.  `none`
models an absent key. -/
structure ApiResponse where
  name : Option String := none
  brand : Option String := none
  asin : Option String := none
  productInfoASIN : Option String := none
  productInfoBrand : Option String := none
  pricing : Option String := none
  availabilityStatus : Option String := none
  fullDescription : Option String := none
  images : Option (List String) := none

/-- The per-field candidate lists produced by `SpecExtractor`. -/
structure ExtractorOutput where
  wattage : List Candidate := []
  dimensions : List Candidate := []
  weight : List Candidate := []
  voltage : List Candidate := []
  pieceCount : List Candidate := []

/-- `api_response.get('brand','').replace('Visit the ','')
.replace(' Store','').strip()`, falling back to
`product_information.get('Brand', 'Unknown')`. -/
def manufacturer_of (resp : ApiResponse) : String :=
  let b0 := (resp.brand.getD "").data
  let b1 := pyReplace "Visit the ".data [] b0
  let b2 := pyReplace " Store".data [] b1
  let b3 : String := ⟨pyStrip b2⟩
  if b3 ≠ "" then b3 else resp.productInfoBrand.getD "Unknown"

/-- `'unavailable' in availability_status or 'out of stock' in
availability_status` (lower-cased). -/
def is_unavailable (resp : ApiResponse) : Bool :=
  let low := pyLower (resp.availabilityStatus.getD "").data
  chListInside "unavailable".data low || chListInside "out of stock".data low

/-- The zero-width/invisible characters stripped from the ASIN. -/
def isInvisibleChar (c : Char) : Bool :=
  (0x200B ≤ c.toNat && c.toNat ≤ 0x200D)
  || c.toNat = 0xFEFF || c.toNat = 0x200E || c.toNat = 0x200F

def sanitize_asin (s : String) : String :=
  ⟨pyStrip (s.data.filter (fun c => !isInvisibleChar c))⟩

/-- The five `select_field` calls of `parse_product_data`. -/
def watt_select (ext : ExtractorOutput) :
    Option CandValue × List String × List String :=
  select_field "wattage" ext.wattage (6/10) validate_wattage
    (some "wattage") true true

def dims_select (ext : ExtractorOutput) :
    Option CandValue × List String × List String :=
  select_field "dimensions" ext.dimensions (6/10) validate_dimensions
    (some "dimensions") true true

def weight_select (ext : ExtractorOutput) :
    Option CandValue × List String × List String :=
  select_field "weight" ext.weight (65/100) validate_weight
    (some "weight") true true

def piece_select (ext : ExtractorOutput) :
    Option CandValue × List String × List String :=
  select_field "piece_count"
    (ext.pieceCount ++ build_math_confirmed_piece_count ext.wattage)
    (6/10) validate_piece_count none false false

def voltage_select (ext : ExtractorOutput) :
    Option CandValue × List String × List String :=
  select_field "voltage" ext.voltage (55/100) validate_voltage
    none false false

/-- The price branch: unavailable listings are forced to price 0; a
price string parsing to `None` *or to the falsy value 0.0* records a
parse failure and a missing `price` entry. -/
def price_result (resp : ApiResponse) :
    Option ℚ × List String × List String :=
  if is_unavailable resp then (some 0, [], [])
  else
    match parse_price_string (resp.pricing.getD "") with
    | some q =>
      if q = 0 then
        (none, ["price"],
         ["Failed to parse price: \x27" ++ resp.pricing.getD "" ++ "\x27"])
      else (some q, [], [])
    | none =>
      (none, ["price"],
       ["Failed to parse price: \x27" ++ resp.pricing.getD "" ++ "\x27"])

/-- The assembled `panel_data` record. -/
structure PanelRecord where
  asin : String
  name : String
  manufacturer : String
  lengthCm : Option ℚ
  widthCm : Option ℚ
  weightKg : Option CandValue
  wattage : Option CandValue
  voltage : Option CandValue
  pieceCount : Option CandValue
  priceUsd : Option ℚ
  description : Option String
  imageUrl : Option String
  webUrl : Option String
  parsingFailures : List String
  missingFields : List String
deriving DecidableEq

/-- `length_cm, width_cm = dimensions` / `else None, None`: tuple
unpacking of the selected dimensions value.  The `none` result models
the `TypeError` a non-tuple value would raise (caught by the blanket
handler; unreachable, since the validator admits only pairs). -/
def dims_unpack : Option CandValue → Option (Option ℚ × Option ℚ)
  | some (.pairV a b) => some (some a, some b)
  | some _ => none
  | none => some (none, none)

/-- `ScraperAPIParser.parse_product_data`.  The blanket
`except Exception` of the source maps two reachable exception sites to
`None`: the dimension-tuple unpack (unreachable — the validator admits
only pairs) and `api_response.get('images', [None])[0]` applied to a
*present but empty* images list (`IndexError`). -/
def parse_product_data (resp : ApiResponse) (ext : ExtractorOutput) :
    Option PanelRecord :=
  let name := resp.name.getD ""
  if name = "" then none
  else
    let manufacturer := manufacturer_of resp
    if manufacturer = "" || manufacturer = "Unknown" then none
    else
      match py_or_raw resp.asin resp.productInfoASIN with
      | none => none
      | some asin0 =>
        if asin0 = "" then none
        else
          match dims_unpack (dims_select ext).1 with
          | none => none
          | some lw =>
            match resp.images with
            | some [] => none
            | imgs =>
              some
                { asin := sanitize_asin asin0, name := name,
                  manufacturer := manufacturer,
                  lengthCm := lw.1, widthCm := lw.2,
                  weightKg := (weight_select ext).1,
                  wattage := (watt_select ext).1,
                  voltage := (voltage_select ext).1,
                  pieceCount := (piece_select ext).1,
                  priceUsd := (price_result resp).1,
                  description :=
                    (match resp.fullDescription with
                     | some d => if d = "" then none else some (⟨d.data.take 1000⟩ : String)
                     | none => none),
                  imageUrl :=
                    (match imgs with
                     | some (u :: _) => some u
                     | _ => none),
                  webUrl :=
                    (if sanitize_asin asin0 ≠ "" then
                      some ("https://www.amazon.com/dp/" ++ sanitize_asin asin0)
                     else none),
                  parsingFailures :=
                    (watt_select ext).2.2 ++ (dims_select ext).2.2
                      ++ (weight_select ext).2.2 ++ (piece_select ext).2.2
                      ++ (voltage_select ext).2.2 ++ (price_result resp).2.2,
                  missingFields :=
                    (watt_select ext).2.1 ++ (dims_select ext).2.1
                      ++ (weight_select ext).2.1 ++ (piece_select ext).2.1
                      ++ (voltage_select ext).2.1 ++ (price_result resp).2.1 }

/-- Projections of a successfully parsed record. -/
theorem parse_product_data_fields (resp : ApiResponse) (ext : ExtractorOutput)
    (rec : PanelRecord) (h : parse_product_data resp ext = some rec) :
    rec.wattage = (watt_select ext).1
    ∧ rec.weightKg = (weight_select ext).1
    ∧ rec.pieceCount = (piece_select ext).1
    ∧ rec.voltage = (voltage_select ext).1
    ∧ rec.priceUsd = (price_result resp).1
    ∧ rec.missingFields
        = (watt_select ext).2.1 ++ (dims_select ext).2.1 ++ (weight_select ext).2.1
          ++ (piece_select ext).2.1 ++ (voltage_select ext).2.1
          ++ (price_result resp).2.1
    ∧ rec.parsingFailures
        = (watt_select ext).2.2 ++ (dims_select ext).2.2 ++ (weight_select ext).2.2
          ++ (piece_select ext).2.2 ++ (voltage_select ext).2.2
          ++ (price_result resp).2.2 := by
  simp only [parse_product_data] at h
  repeat' split at h
  all_goals
    first
      | exact Option.noConfusion h
      | (injection h with he; subst he; exact ⟨rfl, rfl, rfl, rfl, rfl, rfl, rfl⟩)

/-- `select_field` with `track_missing=False, log_failures=False`
(the piece_count and voltage calls) records nothing, in every branch. -/
theorem select_field_skip (label : String) (cands : List Candidate) (th : ℚ)
    (val : CandValue → Bool) (mk : Option String) :
    (select_field label cands th val mk false false).2.1 = []
    ∧ (select_field label cands th val mk false false).2.2 = [] := by
  rw [select_field]
  split
  · exact ⟨rfl, rfl⟩
  · split
    · exact ⟨rfl, rfl⟩
    · exact ⟨rfl, rfl⟩

/-- `select_field` with tracking on: a failed selection contributes
exactly its missing key and one failure message. -/
theorem select_field_track_fail (label : String) (cands : List Candidate)
    (th : ℚ) (val : CandValue → Bool) (k : String)
    (h : (select_field label cands th val (some k) true true).1 = none) :
    (select_field label cands th val (some k) true true).2.1 = [k]
    ∧ (select_field label cands th val (some k) true true).2.2.length = 1 := by
  rw [select_field] at h ⊢
  split at h
  · exact ⟨rfl, rfl⟩
  · split at h
    · rename_i hconf
      rw [if_pos hconf]
      exact ⟨rfl, rfl⟩
    · exact absurd h (by simp)

/-- Any tracked selection contributes either nothing or its own key. -/
theorem select_field_missing_cases (label : String) (cands : List Candidate)
    (th : ℚ) (val : CandValue → Bool) (k : String) :
    (select_field label cands th val (some k) true true).2.1 = []
    ∨ (select_field label cands th val (some k) true true).2.1 = [k] := by
  rw [select_field]
  split
  · exact Or.inr rfl
  · split
    · exact Or.inr rfl
    · exact Or.inl rfl

theorem price_result_missing_cases (resp : ApiResponse) :
    (price_result resp).2.1 = [] ∨ (price_result resp).2.1 = ["price"] := by
  rw [price_result]
  split
  · exact Or.inl rfl
  · split
    · split
      · exact Or.inr rfl
      · exact Or.inl rfl
    · exact Or.inr rfl

/-- C8: a failure to select a piece_count or voltage value (no
candidate, validation rejection, or best confidence below threshold)
leaves the field null but adds nothing to `missing_fields` or
`parsing_failures` — their select calls contribute nothing in any
branch — whereas a wattage, dimensions or weight failure adds its key to
`missing_fields` and one message to `parsing_failures`; the record's
`missing_fields`/`parsing_failures` are exactly the wattage++dimensions
++weight++price contributions, and never mention piece_count or
voltage. -/
theorem claim_C8_optional_enrichment :
    (∀ ext, (piece_select ext).2.1 = [] ∧ (piece_select ext).2.2 = []
      ∧ (voltage_select ext).2.1 = [] ∧ (voltage_select ext).2.2 = [])
    ∧ (∀ ext, (watt_select ext).1 = none →
        (watt_select ext).2.1 = ["wattage"] ∧ (watt_select ext).2.2.length = 1)
    ∧ (∀ ext, (dims_select ext).1 = none →
        (dims_select ext).2.1 = ["dimensions"] ∧ (dims_select ext).2.2.length = 1)
    ∧ (∀ ext, (weight_select ext).1 = none →
        (weight_select ext).2.1 = ["weight"] ∧ (weight_select ext).2.2.length = 1)
    ∧ (∀ resp ext rec, parse_product_data resp ext = some rec →
        rec.pieceCount = (piece_select ext).1
        ∧ rec.voltage = (voltage_select ext).1
        ∧ rec.missingFields
            = (watt_select ext).2.1 ++ (dims_select ext).2.1
              ++ (weight_select ext).2.1 ++ (price_result resp).2.1
        ∧ rec.parsingFailures
            = (watt_select ext).2.2 ++ (dims_select ext).2.2
              ++ (weight_select ext).2.2 ++ (price_result resp).2.2
        ∧ "piece_count" ∉ rec.missingFields
        ∧ "voltage" ∉ rec.missingFields) := by
  have hskip : ∀ ext, (piece_select ext).2.1 = [] ∧ (piece_select ext).2.2 = []
      ∧ (voltage_select ext).2.1 = [] ∧ (voltage_select ext).2.2 = [] := by
    intro ext
    obtain ⟨h1, h2⟩ := select_field_skip "piece_count"
      (ext.pieceCount ++ build_math_confirmed_piece_count ext.wattage)
      (6/10) validate_piece_count none
    obtain ⟨h3, h4⟩ := select_field_skip "voltage" ext.voltage (55/100)
      validate_voltage none
    exact ⟨h1, h2, h3, h4⟩
  refine ⟨hskip,
    fun ext h => select_field_track_fail _ _ _ _ _ h,
    fun ext h => select_field_track_fail _ _ _ _ _ h,
    fun ext h => select_field_track_fail _ _ _ _ _ h,
    ?_⟩
  intro resp ext rec h
  obtain ⟨_, _, hp, hv, _, hm, hf⟩ := parse_product_data_fields resp ext rec h
  obtain ⟨hs1, hs2, hs3, hs4⟩ := hskip ext
  have hm' : rec.missingFields
      = (watt_select ext).2.1 ++ (dims_select ext).2.1
        ++ (weight_select ext).2.1 ++ (price_result resp).2.1 := by
    rw [hm, hs1, hs3]
    simp
  have hf' : rec.parsingFailures
      = (watt_select ext).2.2 ++ (dims_select ext).2.2
        ++ (weight_select ext).2.2 ++ (price_result resp).2.2 := by
    rw [hf, hs2, hs4]
    simp
  refine ⟨hp, hv, hm', hf', ?_, ?_⟩
  · rw [hm']
    intro hmem
    simp only [List.mem_append] at hmem
    rcases hmem with ((hw | hd) | hg) | hr
    · rcases select_field_missing_cases "wattage" ext.wattage (6/10)
        validate_wattage "wattage" with he | he <;>
        rw [watt_select] at hw <;> rw [he] at hw <;> simp_all
    · rcases select_field_missing_cases "dimensions" ext.dimensions (6/10)
        validate_dimensions "dimensions" with he | he <;>
        rw [dims_select] at hd <;> rw [he] at hd <;> simp_all
    · rcases select_field_missing_cases "weight" ext.weight (65/100)
        validate_weight "weight" with he | he <;>
        rw [weight_select] at hg <;> rw [he] at hg <;> simp_all
    · rcases price_result_missing_cases resp with he | he <;>
        rw [he] at hr <;> simp_all
  · rw [hm']
    intro hmem
    simp only [List.mem_append] at hmem
    rcases hmem with ((hw | hd) | hg) | hr
    · rcases select_field_missing_cases "wattage" ext.wattage (6/10)
        validate_wattage "wattage" with he | he <;>
        rw [watt_select] at hw <;> rw [he] at hw <;> simp_all
    · rcases select_field_missing_cases "dimensions" ext.dimensions (6/10)
        validate_dimensions "dimensions" with he | he <;>
        rw [dims_select] at hd <;> rw [he] at hd <;> simp_all
    · rcases select_field_missing_cases "weight" ext.weight (65/100)
        validate_weight "weight" with he | he <;>
        rw [weight_select] at hg <;> rw [he] at hg <;> simp_all
    · rcases price_result_missing_cases resp with he | he <;>
        rw [he] at hr <;> simp_all

/-- Empty extractor output (no candidates from any source). -/
def emptyExt : ExtractorOutput := {}

/-- C6 failing input: name, brand and ASIN all present, `images` present
but empty. -/
def c6resp : ApiResponse :=
  { name := some "Panel X", brand := some "BrandCo",
    asin := some "B000000001", images := some [] }

/-- The same response without the `images` key. -/
def c6respOk : ApiResponse :=
  { name := some "Panel X", brand := some "BrandCo",
    asin := some "B000000001" }

/-- The same response without a name. -/
def c6respNoName : ApiResponse :=
  { brand := some "BrandCo", asin := some "B000000001" }

/-- C6 (code bug): `parse_product_data` is documented ("Only name,
manufacturer, and ASIN are required") and specified to fail only when
one of those three is missing, but a listing whose `images` key is a
present-but-empty list also fails the whole parse:
`api_response.get('images', [None])[0]` raises `IndexError`, which the
blanket `except Exception` turns into `None`.  With the `images` key
absent the same response parses successfully, and with the name absent
it fails as specified. -/
theorem claim_C6_required_fields :
    (c6resp.name = some "Panel X"
      ∧ manufacturer_of c6resp = "BrandCo"
      ∧ py_or_raw c6resp.asin c6resp.productInfoASIN = some "B000000001")
    ∧ parse_product_data c6resp emptyExt = none
    ∧ (parse_product_data c6respOk emptyExt).isSome = true
    ∧ parse_product_data c6respNoName emptyExt = none :=
  ⟨⟨rfl, by with_unfolding_all rfl, by with_unfolding_all rfl⟩,
   by with_unfolding_all rfl,
   by with_unfolding_all rfl,
   by with_unfolding_all rfl⟩

/-! ### C9: price handling -/

theorem mantissaToRat?_nonneg (m : List Char) (q : ℚ)
    (h : mantissaToRat? m = some q) : 0 ≤ q := by
  rw [mantissaToRat?] at h
  split at h
  · split at h
    · exact absurd h (by simp)
    · injection h with h'
      subst h'
      positivity
  · split at h
    · exact absurd h (by simp)
    · injection h with h'
      subst h'
      positivity
  · exact absurd h (by simp)

theorem halfEven_nonneg (q : ℚ) (h : 0 ≤ q) : 0 ≤ halfEven q := by
  have h1 := (halfEven_bounds q).1
  have h2 : (0 : ℤ) ≤ ⌊q⌋ := Int.floor_nonneg.2 h
  omega

theorem roundHE2_nonneg (q : ℚ) (h : 0 ≤ q) : 0 ≤ roundHE2 q := by
  rw [roundHE2]
  have := halfEven_nonneg (q * 100) (by linarith)
  have hc : (0 : ℚ) ≤ (halfEven (q * 100) : ℚ) := by exact_mod_cast this
  linarith

/-- `parse_price_string` never returns a negative value (the matched
numeral has no sign). -/
theorem parse_price_string_nonneg (s : String) (q : ℚ)
    (h : parse_price_string s = some q) : 0 ≤ q := by
  rw [parse_price_string] at h
  split at h
  · exact absurd h (by simp)
  · rename_i run hrun
    rw [Option.map_eq_some'] at h
    obtain ⟨q0, hq0, rfl⟩ := h
    exact roundHE2_nonneg q0 (mantissaToRat?_nonneg run q0 hq0)

/-- C9: for every successfully parsed listing that is not marked
unavailable/out-of-stock, `price_usd` is either null or strictly
positive: a pricing string parsing to the value 0 (e.g. `"$0.00"`) is
treated as a price-parse failure (`price_usd` null, `price` appended to
`missing_fields`), and `price_usd = 0` occurs only through the
unavailable-listing branch. -/
theorem claim_C9_price_positive :
    (∀ s q, parse_price_string s = some q → 0 ≤ q)
    ∧ ∀ resp ext rec, parse_product_data resp ext = some rec →
        (is_unavailable resp = false →
          (∀ q, rec.priceUsd = some q → 0 < q)
          ∧ (parse_price_string (resp.pricing.getD "") = some 0 →
              rec.priceUsd = none ∧ "price" ∈ rec.missingFields))
        ∧ (rec.priceUsd = some 0 → is_unavailable resp = true) := by
  refine ⟨parse_price_string_nonneg, ?_⟩
  intro resp ext rec h
  obtain ⟨_, _, _, _, hprice, hmiss, _⟩ := parse_product_data_fields resp ext rec h
  have hmain : is_unavailable resp = false →
      (∀ q, rec.priceUsd = some q → 0 < q)
      ∧ (parse_price_string (resp.pricing.getD "") = some 0 →
          rec.priceUsd = none ∧ "price" ∈ rec.missingFields) := by
    intro hun
    have hcond : ¬ (is_unavailable resp = true) := by rw [hun]; simp
    constructor
    · intro q hq
      rw [hprice, price_result, if_neg hcond] at hq
      split at hq
      · rename_i q0 hq0
        split at hq
        · exact absurd hq (by simp)
        · rename_i hq00
          injection hq with h'
          subst h'
          exact lt_of_le_of_ne (parse_price_string_nonneg _ _ hq0) (Ne.symm hq00)
      · exact absurd hq (by simp)
    · intro h0
      constructor
      · rw [hprice, price_result, if_neg hcond, h0]
        norm_num
      · rw [hmiss]
        have : (price_result resp).2.1 = ["price"] := by
          rw [price_result, if_neg hcond, h0]
          norm_num
        rw [this]
        simp
  refine ⟨hmain, ?_⟩
  intro h0
  by_cases hun : is_unavailable resp = true
  · exact hun
  · exfalso
    have hfalse : is_unavailable resp = false := by simpa using hun
    exact lt_irrefl 0 (((hmain hfalse).1) 0 h0)

/-- Shared witness input for C8/C9: required fields present, every
candidate list empty, pricing `"$0.00"`. -/
def reqResp : ApiResponse :=
  { name := some "Panel X", brand := some "BrandCo",
    asin := some "B000000001", pricing := some "$0.00" }

/-- The record `parse_product_data reqResp emptyExt` produces. -/
def reqRec : PanelRecord :=
  { asin := "B000000001", name := "Panel X", manufacturer := "BrandCo",
    lengthCm := none, widthCm := none, weightKg := none, wattage := none,
    voltage := none, pieceCount := none, priceUsd := none,
    description := none, imageUrl := none,
    webUrl := some "https://www.amazon.com/dp/B000000001",
    parsingFailures := ["No wattage candidates", "No dimensions candidates",
                        "No weight candidates",
                        "Failed to parse price: \x27$0.00\x27"],
    missingFields := ["wattage", "dimensions", "weight", "price"] }

/-- Witness for C9 at a concrete input: `"$0.00"` parses to 0, which is
treated as a price failure. -/
theorem claim_C9_witness :
    reqRec.priceUsd = none ∧ "price" ∈ reqRec.missingFields :=
  ((claim_C9_price_positive.2 reqResp emptyExt reqRec
      (by with_unfolding_all rfl)).1
    (by with_unfolding_all rfl)).2 (by with_unfolding_all rfl)

/-- Witness for C8 at a concrete input. -/
theorem claim_C8_witness :
    reqRec.pieceCount = (piece_select emptyExt).1
    ∧ "piece_count" ∉ reqRec.missingFields
    ∧ "voltage" ∉ reqRec.missingFields :=
  let h := claim_C8_optional_enrichment.2.2.2.2 reqResp emptyExt reqRec
    (by with_unfolding_all rfl)
  ⟨h.1, h.2.2.2.2.1, h.2.2.2.2.2⟩

/-! ### The reparse reconciler (`reparse_raw_scraper_data.py`)

The per-row reconciliation core of `run_reparse` (lines 431–551 of the
source): given the stored panel row (with its protected-override field
lists) and the freshly parsed values, compute the staged update map, the
override-mismatch reports and the override tallies.  Database access,
argument parsing and logging are outside the model; `--apply` only
writes the staged map and resolves flags for `build_flag_clear_fields`
of the staged map, both of which are modelled.  The six reconciled
fields are numeric, so stored/parsed values are `Option ℚ` (the
non-numeric fallback `old == new` of `values_equal` is unreachable for
them). -/

def TARGET_FIELDS : List String :=
  ["wattage", "length_cm", "width_cm", "weight_kg", "piece_count", "voltage"]

/-- `values_equal` (numeric tolerance 0.01). -/
def values_equal (old new : Option ℚ) (tol : ℚ := 1/100) : Bool :=
  match old, new with
  | none, none => true
  | none, some _ => false
  | some _, none => false
  | some a, some b => |a - b| ≤ tol

/-- `is_minor_rounding` (tolerance 0.05). -/
def is_minor_rounding (old new : Option ℚ) (tol : ℚ := 1/20) : Bool :=
  match old, new with
  | some a, some b => (0 < |a - b|) && (|a - b| ≤ tol)
  | _, _ => false

/-- `is_dimension_swap` (tolerance 0.01). -/
def is_dimension_swap (ol ow nl nw : Option ℚ) (tol : ℚ := 1/100) : Bool :=
  match ol, ow, nl, nw with
  | some a, some b, some c, some d => (|a - d| ≤ tol) && (|b - c| ≤ tol)
  | _, _, _, _ => false

/-- The `selected` entry of `extraction_evidence[key]` (each `.get`
returns `None` when absent). -/
structure SelectedEvidence where
  confidence : Option ℚ := none
  source : Option String := none
  raw : Option String := none

/-- The freshly parsed values (plus selected evidence) for one row. -/
structure ParsedValues where
  wattage : Option ℚ := none
  lengthCm : Option ℚ := none
  widthCm : Option ℚ := none
  weightKg : Option ℚ := none
  pieceCount : Option ℚ := none
  voltage : Option ℚ := none
  evWattage : Option SelectedEvidence := none
  evDimensions : Option SelectedEvidence := none
  evWeight : Option SelectedEvidence := none
  evPiece : Option SelectedEvidence := none
  evVoltage : Option SelectedEvidence := none

/-- The stored panel projection used by the reconciler. -/
structure StoredPanel where
  wattage : Option ℚ := none
  lengthCm : Option ℚ := none
  widthCm : Option ℚ := none
  weightKg : Option ℚ := none
  pieceCount : Option ℚ := none
  voltage : Option ℚ := none
  missingFields : List String := []
  manualOverrides : List String := []
  userVerifiedOverrides : List String := []

/-- `set(manual_overrides) | set(user_verified_overrides)`
(membership-equivalent list union). -/
def protected_fields (panel : StoredPanel) : List String :=
  panel.manualOverrides ++ panel.userVerifiedOverrides

/-- An override-mismatch report: field, current, proposed, selected
candidate confidence/source/raw text, tags. -/
structure OverrideMismatch where
  field : String
  current : Option ℚ
  proposed : Option ℚ
  confidence : Option ℚ
  source : Option String
  raw : Option String
  tags : List String

/-- The summary tallies `register_override_check` produces. -/
inductive TallyEvent where
  | overrideConfirmed (field : String)
  | overrideUnparsed (field : String)
  | overrideMismatchTally (field : String)

/-- `register_override_check`: for a protected field, compare stored and
parsed values and emit a tally and (on mismatch) a report — never an
update. -/
def register_override_check (check_overrides : Bool) (prot : List String)
    (ev : Option SelectedEvidence) (field : String)
    (new_value current_value : Option ℚ) :
    List TallyEvent × List OverrideMismatch :=
  if !check_overrides then ([], [])
  else if field ∉ prot then ([], [])
  else
    match new_value with
    | none => ([.overrideUnparsed field], [])
    | some _ =>
      if values_equal current_value new_value then
        ([.overrideConfirmed field], [])
      else
        ([.overrideMismatchTally field],
         [{ field := field, current := current_value, proposed := new_value,
            confidence := (ev.getD {}).confidence,
            source := (ev.getD {}).source, raw := (ev.getD {}).raw,
            tags :=
              if (field = "length_cm" || field = "width_cm")
                  && is_minor_rounding current_value new_value then
                ["rounding"]
              else [] }])

/-- Values staged into `update_data` (numeric field values and the
`missing_fields` list). -/
inductive UpdEntry where
  | num (q : ℚ)
  | strs (l : List String)
deriving DecidableEq

/-- One unprotected scalar field block of `run_reparse`: stage the new
value when it differs beyond tolerance; `missKey` is
`MISSING_FIELD_MAP`'s entry (absent for piece_count/voltage). -/
def stage_scalar (prot : List String) (field : String) (newV oldV : Option ℚ)
    (missKey : Option String) : List (String × UpdEntry) × List String :=
  match newV with
  | some v =>
    if field ∈ prot then ([], [])
    else if values_equal oldV (some v) then ([], [])
    else ([(field, .num v)], missKey.toList)
  | none => ([], [])

/-- The dimensions block: updated as a pair, only when *both* length and
width are unprotected. -/
def stage_dims (prot : List String) (nl nw ol ow : Option ℚ) :
    List (String × UpdEntry) × List String :=
  match nl, nw with
  | some l, some w =>
    if "length_cm" ∈ prot ∨ "width_cm" ∈ prot then ([], [])
    else if values_equal ol (some l) && values_equal ow (some w) then ([], [])
    else ([("length_cm", .num l), ("width_cm", .num w)], ["dimensions"])
  | _, _ => ([], [])

/-- `update_missing_fields`. -/
def update_missing_fields (current : List String) (removeKeys : List String) :
    Option (List String) :=
  if removeKeys.isEmpty then none
  else
    let updated := current.filter (fun f => f ∉ removeKeys)
    if updated = current then none else some updated

/-- `FLAG_FIELD_ALIASES.get(field, {field})`. -/
def FLAG_FIELD_ALIASES (field : String) : List String :=
  if field = "length_cm" ∨ field = "width_cm" then
    ["length_cm", "width_cm", "dimensions"]
  else if field = "weight_kg" then ["weight_kg", "weight"]
  else [field]

/-- `build_flag_clear_fields`: the union of aliases of the staged field
names (skipping `missing_fields`). -/
def build_flag_clear_fields (update_data : List (String × UpdEntry)) :
    List String :=
  ((update_data.filter (fun p => p.1 ≠ "missing_fields")).map
    (fun p => FLAG_FIELD_ALIASES p.1)).flatten

/-- The five field blocks' staged entries, in source order. -/
def reconcile_base (panel : StoredPanel) (parsed : ParsedValues) :
    List (String × UpdEntry) :=
  (stage_scalar (protected_fields panel) "wattage" parsed.wattage panel.wattage
    (some "wattage")).1
  ++ (stage_scalar (protected_fields panel) "weight_kg" parsed.weightKg
      panel.weightKg (some "weight")).1
  ++ (stage_dims (protected_fields panel) parsed.lengthCm parsed.widthCm
      panel.lengthCm panel.widthCm).1
  ++ (stage_scalar (protected_fields panel) "piece_count" parsed.pieceCount
      panel.pieceCount none).1
  ++ (stage_scalar (protected_fields panel) "voltage" parsed.voltage
      panel.voltage none).1

/-- The `remove_missing` key set. -/
def reconcile_remove_missing (panel : StoredPanel) (parsed : ParsedValues) :
    List String :=
  (stage_scalar (protected_fields panel) "wattage" parsed.wattage panel.wattage
    (some "wattage")).2
  ++ (stage_scalar (protected_fields panel) "weight_kg" parsed.weightKg
      panel.weightKg (some "weight")).2
  ++ (stage_dims (protected_fields panel) parsed.lengthCm parsed.widthCm
      panel.lengthCm panel.widthCm).2
  ++ (stage_scalar (protected_fields panel) "piece_count" parsed.pieceCount
      panel.pieceCount none).2
  ++ (stage_scalar (protected_fields panel) "voltage" parsed.voltage
      panel.voltage none).2

/-- The staged `update_data` map (insertion order: wattage, weight_kg,
length_cm, width_cm, piece_count, voltage, missing_fields). -/
def reconcile_updates (panel : StoredPanel) (parsed : ParsedValues) :
    List (String × UpdEntry) :=
  match update_missing_fields panel.missingFields
      (reconcile_remove_missing panel parsed) with
  | some updated =>
    reconcile_base panel parsed ++ [("missing_fields", UpdEntry.strs updated)]
  | none => reconcile_base panel parsed

/-- The six `register_override_check` calls' mismatch reports, in
source order. -/
def reconcile_raw_mismatches (panel : StoredPanel) (parsed : ParsedValues)
    (co : Bool) : List OverrideMismatch :=
  (register_override_check co (protected_fields panel) parsed.evWattage
    "wattage" parsed.wattage panel.wattage).2
  ++ (register_override_check co (protected_fields panel) parsed.evWeight
      "weight_kg" parsed.weightKg panel.weightKg).2
  ++ (register_override_check co (protected_fields panel) parsed.evDimensions
      "length_cm" parsed.lengthCm panel.lengthCm).2
  ++ (register_override_check co (protected_fields panel) parsed.evDimensions
      "width_cm" parsed.widthCm panel.widthCm).2
  ++ (register_override_check co (protected_fields panel) parsed.evPiece
      "piece_count" parsed.pieceCount panel.pieceCount).2
  ++ (register_override_check co (protected_fields panel) parsed.evVoltage
      "voltage" parsed.voltage panel.voltage).2

/-- The swap-tag post-processing of a dimension mismatch
(`list(set(tags + ['swap']))`; the set-dedup iteration order is
abstracted to an append-if-absent). -/
def swap_tag_mismatch (m : OverrideMismatch) : OverrideMismatch :=
  if m.field = "length_cm" ∨ m.field = "width_cm" then
    { m with tags := if "swap" ∈ m.tags then m.tags else m.tags ++ ["swap"] }
  else m

def reconcile_mismatches (panel : StoredPanel) (parsed : ParsedValues)
    (co : Bool) : List OverrideMismatch :=
  if co && !(reconcile_raw_mismatches panel parsed co).isEmpty
      && parsed.lengthCm.isSome && parsed.widthCm.isSome
      && is_dimension_swap panel.lengthCm panel.widthCm
          parsed.lengthCm parsed.widthCm then
    (reconcile_raw_mismatches panel parsed co).map swap_tag_mismatch
  else reconcile_raw_mismatches panel parsed co

/-- The six `register_override_check` calls' tallies, in source order. -/
def reconcile_tallies (panel : StoredPanel) (parsed : ParsedValues)
    (co : Bool) : List TallyEvent :=
  (register_override_check co (protected_fields panel) parsed.evWattage
    "wattage" parsed.wattage panel.wattage).1
  ++ (register_override_check co (protected_fields panel) parsed.evWeight
      "weight_kg" parsed.weightKg panel.weightKg).1
  ++ (register_override_check co (protected_fields panel) parsed.evDimensions
      "length_cm" parsed.lengthCm panel.lengthCm).1
  ++ (register_override_check co (protected_fields panel) parsed.evDimensions
      "width_cm" parsed.widthCm panel.widthCm).1
  ++ (register_override_check co (protected_fields panel) parsed.evPiece
      "piece_count" parsed.pieceCount panel.pieceCount).1
  ++ (register_override_check co (protected_fields panel) parsed.evVoltage
      "voltage" parsed.voltage panel.voltage).1

structure ReconcileResult where
  updateData : List (String × UpdEntry)
  mismatches : List OverrideMismatch
  tallies : List TallyEvent

/-- The per-row reconciliation core of `run_reparse`. -/
def reconcile_row (panel : StoredPanel) (parsed : ParsedValues) (co : Bool) :
    ReconcileResult :=
  { updateData := reconcile_updates panel parsed,
    mismatches := reconcile_mismatches panel parsed co,
    tallies := reconcile_tallies panel parsed co }

theorem stage_scalar_mem (prot : List String) (field : String) (n o : Option ℚ)
    (mk : Option String) (f : String)
    (h : f ∈ (stage_scalar prot field n o mk).1.map Prod.fst) :
    f = field ∧ field ∉ prot := by
  rw [stage_scalar.eq_def] at h
  split at h
  · split at h
    · exact absurd h (by simp)
    · split at h
      · exact absurd h (by simp)
      · rename_i hprot _
        simp only [List.map_cons, List.map_nil, List.mem_singleton] at h
        exact ⟨h, hprot⟩
  · exact absurd h (by simp)

theorem stage_dims_mem (prot : List String) (nl nw ol ow : Option ℚ) (f : String)
    (h : f ∈ (stage_dims prot nl nw ol ow).1.map Prod.fst) :
    (f = "length_cm" ∨ f = "width_cm")
    ∧ "length_cm" ∉ prot ∧ "width_cm" ∉ prot := by
  rcases nl with _ | l
  · rw [stage_dims.eq_def] at h
    exact absurd h (by simp)
  · rcases nw with _ | w
    · rw [stage_dims.eq_def] at h
      exact absurd h (by simp)
    · rw [stage_dims] at h
      split at h
      · exact absurd h (by simp)
      · split at h
        · exact absurd h (by simp)
        · rename_i hprot _
          push_neg at hprot
          simp only [List.map_cons, List.map_nil, List.mem_cons,
            List.mem_singleton] at h
          rcases h with h | h | h
          · exact ⟨Or.inl h, hprot.1, hprot.2⟩
          · exact ⟨Or.inr h, hprot.1, hprot.2⟩
          · exact absurd h (by simp)

theorem reconcile_base_mem (panel : StoredPanel) (parsed : ParsedValues)
    (f : String) (h : f ∈ (reconcile_base panel parsed).map Prod.fst) :
    (f = "wattage" ∧ "wattage" ∉ protected_fields panel)
    ∨ (f = "weight_kg" ∧ "weight_kg" ∉ protected_fields panel)
    ∨ ((f = "length_cm" ∨ f = "width_cm")
        ∧ "length_cm" ∉ protected_fields panel
        ∧ "width_cm" ∉ protected_fields panel)
    ∨ (f = "piece_count" ∧ "piece_count" ∉ protected_fields panel)
    ∨ (f = "voltage" ∧ "voltage" ∉ protected_fields panel) := by
  rw [reconcile_base] at h
  simp only [List.map_append, List.mem_append] at h
  rcases h with (((h | h) | h) | h) | h
  · exact Or.inl (stage_scalar_mem _ _ _ _ _ _ h)
  · exact Or.inr (Or.inl (stage_scalar_mem _ _ _ _ _ _ h))
  · exact Or.inr (Or.inr (Or.inl (stage_dims_mem _ _ _ _ _ _ h)))
  · exact Or.inr (Or.inr (Or.inr (Or.inl (stage_scalar_mem _ _ _ _ _ _ h))))
  · exact Or.inr (Or.inr (Or.inr (Or.inr (stage_scalar_mem _ _ _ _ _ _ h))))

theorem reconcile_updates_mem (panel : StoredPanel) (parsed : ParsedValues)
    (f : String) (h : f ∈ (reconcile_updates panel parsed).map Prod.fst) :
    f = "missing_fields"
    ∨ (f = "wattage" ∧ "wattage" ∉ protected_fields panel)
    ∨ (f = "weight_kg" ∧ "weight_kg" ∉ protected_fields panel)
    ∨ ((f = "length_cm" ∨ f = "width_cm")
        ∧ "length_cm" ∉ protected_fields panel
        ∧ "width_cm" ∉ protected_fields panel)
    ∨ (f = "piece_count" ∧ "piece_count" ∉ protected_fields panel)
    ∨ (f = "voltage" ∧ "voltage" ∉ protected_fields panel) := by
  rw [reconcile_updates] at h
  split at h
  · simp only [List.map_append, List.mem_append, List.map_cons, List.map_nil,
      List.mem_singleton] at h
    rcases h with h | h
    · exact Or.inr (reconcile_base_mem panel parsed f h)
    · exact Or.inl h
  · exact Or.inr (reconcile_base_mem panel parsed f h)

theorem register_override_mem (co : Bool) (prot : List String)
    (ev : Option SelectedEvidence) (field : String) (nv cv : Option ℚ)
    (m : OverrideMismatch)
    (h : m ∈ (register_override_check co prot ev field nv cv).2) :
    m.field = field ∧ field ∈ prot := by
  rw [register_override_check.eq_def] at h
  split at h
  · exact absurd h (by simp)
  · split at h
    · exact absurd h (by simp)
    · rename_i hprot
      rw [not_not] at hprot
      split at h
      · exact absurd h (by simp)
      · split at h
        · exact absurd h (by simp)
        · rcases List.mem_singleton.1 h with rfl
          exact ⟨rfl, hprot⟩

theorem reconcile_raw_mismatches_mem (panel : StoredPanel)
    (parsed : ParsedValues) (co : Bool) (m : OverrideMismatch)
    (h : m ∈ reconcile_raw_mismatches panel parsed co) :
    m.field ∈ protected_fields panel := by
  rw [reconcile_raw_mismatches] at h
  simp only [List.mem_append] at h
  rcases h with ((((h | h) | h) | h) | h) | h <;>
    · obtain ⟨hf, hp⟩ := register_override_mem _ _ _ _ _ _ _ h
      rw [hf]
      exact hp

theorem reconcile_mismatches_mem (panel : StoredPanel) (parsed : ParsedValues)
    (co : Bool) (m : OverrideMismatch)
    (h : m ∈ reconcile_mismatches panel parsed co) :
    m.field ∈ protected_fields panel := by
  rw [reconcile_mismatches] at h
  split at h
  · obtain ⟨m₀, hm₀, rfl⟩ := List.mem_map.1 h
    have hp := reconcile_raw_mismatches_mem panel parsed co m₀ hm₀
    rw [swap_tag_mismatch]
    split
    · exact hp
    · exact hp
  · exact reconcile_raw_mismatches_mem panel parsed co m h

/-- C4: for every reconciled field name listed in `manual_overrides` or
`user_verified_overrides`, running the reparse reconciler on any parsed
values (including confidently different ones) never places the field in
the staged update map, never includes it in the flag-auto-resolution
set, and only emits mismatch reports — each report carrying field,
current, proposed, confidence, source, raw text and tags — and every
report concerns a protected field. -/
theorem claim_C4_protected_fields (panel : StoredPanel) (parsed : ParsedValues)
    (co : Bool) (f : String) (hf : f ∈ TARGET_FIELDS)
    (hprot : f ∈ protected_fields panel) :
    f ∉ (reconcile_row panel parsed co).updateData.map Prod.fst
    ∧ f ∉ build_flag_clear_fields (reconcile_row panel parsed co).updateData
    ∧ ∀ m ∈ (reconcile_row panel parsed co).mismatches,
        m.field ∈ protected_fields panel := by
  have hkey : ∀ g, g ∈ (reconcile_row panel parsed co).updateData.map Prod.fst →
      g = "missing_fields"
      ∨ (g = "wattage" ∧ "wattage" ∉ protected_fields panel)
      ∨ (g = "weight_kg" ∧ "weight_kg" ∉ protected_fields panel)
      ∨ ((g = "length_cm" ∨ g = "width_cm")
          ∧ "length_cm" ∉ protected_fields panel
          ∧ "width_cm" ∉ protected_fields panel)
      ∨ (g = "piece_count" ∧ "piece_count" ∉ protected_fields panel)
      ∨ (g = "voltage" ∧ "voltage" ∉ protected_fields panel) :=
    fun g hg => reconcile_updates_mem panel parsed g hg
  refine ⟨?_, ?_, fun m hm => reconcile_mismatches_mem panel parsed co m hm⟩
  · intro hmem
    rcases hkey f hmem with h | h | h | h | h | h
    · subst h
      exact absurd hf (by decide)
    · obtain ⟨rfl, hnp⟩ := h; exact hnp hprot
    · obtain ⟨rfl, hnp⟩ := h; exact hnp hprot
    · obtain ⟨hlw, hnl, hnw⟩ := h
      rcases hlw with rfl | rfl
      · exact hnl hprot
      · exact hnw hprot
    · obtain ⟨rfl, hnp⟩ := h; exact hnp hprot
    · obtain ⟨rfl, hnp⟩ := h; exact hnp hprot
  · intro hmem
    rw [build_flag_clear_fields] at hmem
    rw [List.mem_flatten] at hmem
    obtain ⟨l, hl, hfl⟩ := hmem
    obtain ⟨p, hp, rfl⟩ := List.mem_map.1 hl
    have hpk := List.mem_filter.1 hp
    have hkeymem : p.1 ∈ (reconcile_row panel parsed co).updateData.map Prod.fst :=
      List.mem_map_of_mem Prod.fst hpk.1
    have hne : p.1 ≠ "missing_fields" := by
      have := hpk.2
      simpa using this
    rcases hkey p.1 hkeymem with h | h | h | h | h | h
    · exact hne h
    · obtain ⟨hk, hnp⟩ := h
      rw [hk] at hfl
      rw [(by with_unfolding_all rfl :
        FLAG_FIELD_ALIASES "wattage" = ["wattage"])] at hfl
      simp only [List.mem_cons, List.not_mem_nil, or_false] at hfl
      subst hfl
      exact hnp hprot
    · obtain ⟨hk, hnp⟩ := h
      rw [hk] at hfl
      rw [(by with_unfolding_all rfl :
        FLAG_FIELD_ALIASES "weight_kg" = ["weight_kg", "weight"])] at hfl
      simp only [List.mem_cons, List.not_mem_nil, or_false] at hfl
      rcases hfl with rfl | rfl
      · exact hnp hprot
      · exact absurd hf (by decide)
    · obtain ⟨hlw, hnl, hnw⟩ := h
      have hali : FLAG_FIELD_ALIASES p.1 = ["length_cm", "width_cm", "dimensions"] := by
        rw [FLAG_FIELD_ALIASES, if_pos hlw]
      rw [hali] at hfl
      simp only [List.mem_cons, List.not_mem_nil, or_false] at hfl
      rcases hfl with rfl | rfl | rfl
      · exact hnl hprot
      · exact hnw hprot
      · exact absurd hf (by decide)
    · obtain ⟨hk, hnp⟩ := h
      rw [hk] at hfl
      rw [(by with_unfolding_all rfl :
        FLAG_FIELD_ALIASES "piece_count" = ["piece_count"])] at hfl
      simp only [List.mem_cons, List.not_mem_nil, or_false] at hfl
      subst hfl
      exact hnp hprot
    · obtain ⟨hk, hnp⟩ := h
      rw [hk] at hfl
      rw [(by with_unfolding_all rfl :
        FLAG_FIELD_ALIASES "voltage" = ["voltage"])] at hfl
      simp only [List.mem_cons, List.not_mem_nil, or_false] at hfl
      subst hfl
      exact hnp hprot

/-- Witness panel for C4: stored wattage 100, `wattage` manually
overridden. -/
def reconWitPanel : StoredPanel :=
  { wattage := some 100, manualOverrides := ["wattage"] }

/-- Witness parsed values: a confidently different wattage. -/
def reconWitParsed : ParsedValues :=
  { wattage := some 200,
    evWattage := some { confidence := some (9/10),
                        source := some "product_information.maximum power",
                        raw := some "200W" } }

/-- Witness for C4 at a concrete input. -/
theorem claim_C4_witness :
    "wattage" ∉ (reconcile_row reconWitPanel reconWitParsed true).updateData.map Prod.fst
    ∧ "wattage" ∉ build_flag_clear_fields
        (reconcile_row reconWitPanel reconWitParsed true).updateData
    ∧ ∀ m ∈ (reconcile_row reconWitPanel reconWitParsed true).mismatches,
        m.field ∈ protected_fields reconWitPanel :=
  claim_C4_protected_fields reconWitPanel reconWitParsed true "wattage"
    (by decide) (by decide)
